import Mathlib

/-!
Verification of the Coastal Blue Carbon blocked time-series simulation engine
(`src/natcap/invest/coastal_blue_carbon/coastal_blue_carbon.py`).

The model is per-pixel: every per-pixel time series in the source is computed
independently of all other pixels (pure elementwise numpy arithmetic), so a
single pixel's scalar history is a faithful shallow embedding of one raster
cell.  Cell values are modelled by `FVal`: either a rational number (standing
for the exactly representable float values exercised here) or `nan`, which
propagates through arithmetic exactly as IEEE NaN does in numpy.  Masked cells
produced by `reclass_transition` for unmapped code pairs propagate through
arithmetic like NaN and are modelled by the same constructor.
-/

namespace CBC

attribute [local semireducible] Rat.add Rat.mul Rat.sub Rat.inv

/-- A raster cell value: a rational number or NaN.  Models one numpy float32
cell; `nan` also stands for the masked cells of `np.ma.masked_array`, which
propagate through elementwise arithmetic the same way. -/
inductive FVal where
  | nan : FVal
  | val : ℚ → FVal
deriving DecidableEq, Repr

namespace FVal

/-- Elementwise addition: NaN propagates. -/
def add : FVal → FVal → FVal
  | val a, val b => val (a + b)
  | _, _ => nan

/-- Elementwise subtraction: NaN propagates. -/
def sub : FVal → FVal → FVal
  | val a, val b => val (a - b)
  | _, _ => nan

/-- Elementwise multiplication: NaN propagates (numpy `nan * x = nan`). -/
def mul : FVal → FVal → FVal
  | val a, val b => val (a * b)
  | _, _ => nan

instance : Add FVal := ⟨add⟩
instance : Sub FVal := ⟨sub⟩
instance : Mul FVal := ⟨mul⟩
instance : Zero FVal := ⟨val 0⟩

/-- IEEE elementwise equality, as used by `array == np.nan` in
`write_to_raster`: NaN compares unequal to everything, including itself. -/
def ieeeEq : FVal → FVal → Bool
  | val a, val b => a == b
  | _, _ => false

instance : AddCommMonoid FVal where
  add_assoc a b c := by
    cases a <;> cases b <;> cases c <;>
      first
        | rfl
        | exact congrArg FVal.val (by ring)
  zero_add a := by
    cases a <;>
      first
        | rfl
        | exact congrArg FVal.val (by ring)
  add_zero a := by
    cases a <;>
      first
        | rfl
        | exact congrArg FVal.val (by ring)
  add_comm a b := by
    cases a <;> cases b <;>
      first
        | rfl
        | exact congrArg FVal.val (by ring)
  nsmul := nsmulRec

end FVal

/-- The fixed nodata sentinel of the output rasters (`NODATA_FLOAT`),
the largest-magnitude negative 32-bit value used by the source. -/
def NODATA_FLOAT : ℚ := -16777216

/-- Smallest finite float32 value, `np.finfo(np.float32).min`, used by
`reclass` as the intermediate fill for unmapped codes. -/
def f32min : ℚ := -(2 ^ 128 - 2 ^ 104)

/-- Per-pixel embedding of `reclass`: a mapped code takes its dictionary
value; an unmapped code takes `np.finfo(out_dtype).min`; afterwards, when the
`nodata_mask` argument is truthy (nonzero), a pixel whose input code equals the
mask becomes NaN.  (The source's second rewrite `reclass_array[array == ndata]`
compares the input codes to the float32 minimum and never fires for integer
land-cover codes.) -/
def reclass1 (x : ℤ) (d : ℤ → Option ℚ) (nodataMask : ℤ) : FVal :=
  let mapped : FVal := match d x with
    | some v => .val v
    | none => .val f32min
  if nodataMask ≠ 0 ∧ x = nodataMask then .nan else mapped

/-- Per-pixel embedding of `reclass_transition`: a mapped code pair takes its
dictionary value, an unmapped pair is masked (`np.ma.masked`, modelled as NaN
since it propagates through arithmetic the same way); afterwards, when the
`nodata_mask` argument is truthy, a pixel whose previous code equals the mask
becomes NaN. -/
def reclassTransition1 (aPrev aNext : ℤ) (d : ℤ × ℤ → Option ℚ)
    (nodataMask : ℤ) : FVal :=
  let mapped : FVal := match d (aPrev, aNext) with
    | some v => .val v
    | none => .nan
  if nodataMask ≠ 0 ∧ aPrev = nodataMask then .nan else mapped

/-- Embedding of `write_to_raster`'s NaN conversion on one block: the source
runs `array[array == np.nan] = NODATA_FLOAT` before `band.WriteArray`, i.e. it
replaces exactly the cells that compare IEEE-equal to NaN. -/
def write_block (block : List FVal) : List FVal :=
  block.map (fun x => if x.ieeeEq FVal.nan then FVal.val NODATA_FLOAT else x)

/-- Embedding of `timestep_to_transition_idx`'s scan loop: starting at index
`i` with `fuel` iterations remaining, return the first `i` with
`timestep < snapshot_years[i+1] - snapshot_years[0]`, or `none` when the loop
falls through (the Python function returns `None`). -/
def tttAux (s : List ℤ) (t : ℤ) : ℕ → ℕ → Option ℕ
  | _, 0 => none
  | i, fuel + 1 =>
    if t < s.getD (i + 1) 0 - s.headD 0 then some i
    else tttAux s t (i + 1) fuel

/-- Embedding of `timestep_to_transition_idx`: scan `i` over
`[0, transitions)` and return the first `i` with
`timestep < snapshot_years[i+1] - snapshot_years[0]`. -/
def timestep_to_transition_idx (s : List ℤ) (transitions : ℕ) (t : ℤ) :
    Option ℕ :=
  tttAux s t 0 transitions

/-- Truthiness of the Python return value of `timestep_to_transition_idx`:
`None` and `0` are falsy, every positive index is truthy. -/
def idxTruthy : Option ℕ → Bool
  | none => false
  | some 0 => false
  | some (_ + 1) => true

/-- Embedding of `is_transition_year`: the transition index changed from the
previous timestep and the current index is truthy. -/
def is_transition_year (s : List ℤ) (transitions : ℕ) (t : ℤ) : Bool :=
  decide (timestep_to_transition_idx s transitions t ≠
      timestep_to_transition_idx s transitions (t - 1)) &&
    idxTruthy (timestep_to_transition_idx s transitions t)

/-- Embedding of `s_to_timestep`: `snapshot_years[i] - snapshot_years[0]`. -/
def s_to_timestep (s : List ℤ) (i : ℕ) : ℤ :=
  s.getD i 0 - s.headD 0

/-- Run configuration, as assembled by `get_inputs`: the baseline year, the
ordered transition years, the optional analysis year, the economic-analysis
flag and the discounted price trajectory `price_t`. -/
structure Config where
  baselineYear : ℤ
  transitionYears : List ℤ
  analysisYear : Option ℤ
  doEconomicAnalysis : Bool
  priceT : List ℚ
deriving DecidableEq, Repr

namespace Config

/-- `transitions`: number of transition years plus one for the baseline. -/
def transitions (c : Config) : ℕ := c.transitionYears.length + 1

/-- `snapshot_years`: baseline year, then the transition years, then the
analysis year when present. -/
def snapshotYears (c : Config) : List ℤ :=
  (c.baselineYear :: c.transitionYears) ++
    (match c.analysisYear with
     | some a => [a]
     | none => [])

/-- `timesteps = snapshot_years[-1] - snapshot_years[0]`. -/
def timesteps (c : Config) : ℤ :=
  c.snapshotYears.getLastD 0 - c.snapshotYears.headD 0

/-- Number of loop iterations of the transient analysis (`xrange(0,
timesteps)` is empty when `timesteps` is not positive). -/
def timestepsNat (c : Config) : ℕ := c.timesteps.toNat

/-- Number of snapshots, `len(snapshot_years)`. -/
def numSnapshots (c : Config) : ℕ := c.snapshotYears.length

end Config

/-- The raw transition index used by the engine at timestep `i`. -/
def idxAt (c : Config) (i : ℕ) : ℕ :=
  (timestep_to_transition_idx c.snapshotYears c.transitions i).getD 0

/-- Per-pixel biophysical parameters, as produced by the reclass block of
`execute` (lines 177-236): initial stocks, per-transition yearly accumulation,
disturbance fractions and half-lives, and the per-snapshot litter pool.  The
half-life lists are populated by the source but never read by the time loop. -/
structure PixelParams where
  Sb0 : FVal
  Ss0 : FVal
  Yb : List FVal
  Ys : List FVal
  Db : List FVal
  Ds : List FVal
  Hb : List FVal
  Hs : List FVal
  L : List FVal
deriving DecidableEq, Repr

/-- The `C_list` of land-cover codes per pixel: baseline code, the transition
raster codes, and the last transition code repeated for the analysis year; a
run without transition rasters duplicates the baseline code. -/
def cListOf (cPrior : ℤ) (cR : List ℤ) : List ℤ :=
  match cR with
  | [] => [cPrior, cPrior]
  | _ => (cPrior :: cR) ++ [cR.getLastD 0]

/-- Build the per-pixel parameters exactly as the reclass block of `execute`
does: disturbance fractions and half-lives from the source cover of each
transition, yearly accumulation from the destination cover, initial stocks
from the baseline cover, litter from every cover of `C_list`. -/
def buildPixelParams (cList : List ℤ) (transitions : ℕ)
    (dDb dDs : ℤ × ℤ → Option ℚ)
    (dHb dHs dYb dYs dSb dSs dL : ℤ → Option ℚ)
    (nodataMask : ℤ) : PixelParams where
  Sb0 := reclass1 (cList.getD 0 0) dSb nodataMask
  Ss0 := reclass1 (cList.getD 0 0) dSs nodataMask
  Yb := (List.range transitions).map
    (fun i => reclass1 (cList.getD (i + 1) 0) dYb nodataMask)
  Ys := (List.range transitions).map
    (fun i => reclass1 (cList.getD (i + 1) 0) dYs nodataMask)
  Db := (List.range transitions).map
    (fun i => reclassTransition1 (cList.getD i 0) (cList.getD (i + 1) 0)
      dDb nodataMask)
  Ds := (List.range transitions).map
    (fun i => reclassTransition1 (cList.getD i 0) (cList.getD (i + 1) 0)
      dDs nodataMask)
  Hb := (List.range transitions).map
    (fun i => reclass1 (cList.getD i 0) dHb nodataMask)
  Hs := (List.range transitions).map
    (fun i => reclass1 (cList.getD i 0) dHs nodataMask)
  L := (List.range cList.length).map
    (fun i => reclass1 (cList.getD i 0) dL nodataMask)

/-- The decay factor `0.5**(t-j) - 0.5**(t-j+1)` of the emission update, with
the exponents taken over ℤ exactly as Python evaluates them. -/
def decayTerm (t j : ℤ) : ℚ :=
  (1 / 2 : ℚ) ^ (t - j) - (1 / 2 : ℚ) ^ (t - j + 1)

/-- Embedding of the emission accumulation loop (lines 253-269): iterate
`transition_idx` upward with `fuel` iterations remaining; when
`transition_years[transition_idx]` does not exist the Python `IndexError`
breaks out of the loop; otherwise add
`R[transition_idx] * (0.5**(t-j) - 0.5**(t-j+1))` with
`j = transition_years[transition_idx] - transition_years[0]`. -/
def emitLoop (R : List FVal) (ty : List ℤ) (t : ℤ) : ℕ → ℕ → FVal
  | _, 0 => 0
  | idx, fuel + 1 =>
    match ty.get? idx with
    | none => 0
    | some tyYear =>
      R.getD idx 0 * FVal.val (decayTerm t (tyYear - ty.headD 0)) +
        emitLoop R ty t (idx + 1) fuel

/-- The per-pixel state carried through the transient-analysis loop: current
stocks, the per-transition disturbed-carbon ledgers `R`, and the accumulated
per-timestep series (each list grows by one entry per timestep). -/
structure RunState where
  Sb : FVal
  Ss : FVal
  SbSeries : List FVal
  SsSeries : List FVal
  Tseries : List FVal
  Rb : List FVal
  Rs : List FVal
  Ab : List FVal
  As : List FVal
  Eb : List FVal
  Es : List FVal
  Nb : List FVal
  Ns : List FVal
  V : List FVal
deriving DecidableEq, Repr

/-- One iteration of the transient-analysis loop (lines 239-282) at timestep
`i`: optionally re-record the disturbed-stock ledgers at a transition year,
take accumulation from the yearly-accumulation layer of the current
transition, accumulate decaying emissions from every recorded ledger, compute
net sequestration, advance the stocks, and compute the valuation entry.  The
source indexes `Y_pool[transition_idx]` with the raw scan result; `getD 0`
stands for a value of `None`, which would crash the source and is proved
unreachable for in-range timesteps. -/
def step (c : Config) (p : PixelParams) (st : RunState) (i : ℕ) : RunState :=
  let s := c.snapshotYears
  let k := (timestep_to_transition_idx s c.transitions i).getD 0
  let Rb := if is_transition_year s c.transitions i then
      st.Rb.set k (p.Db.getD k 0 * st.Sb)
    else st.Rb
  let Rs := if is_transition_year s c.transitions i then
      st.Rs.set k (p.Ds.getD k 0 * st.Ss)
    else st.Rs
  let Abi := p.Yb.getD k 0
  let Asi := p.Ys.getD k 0
  let Ebi := emitLoop Rb c.transitionYears i 0 (k + 1)
  let Esi := emitLoop Rs c.transitionYears i 0 (k + 1)
  let Nbi := Abi - Ebi
  let Nsi := Asi - Esi
  let Sbn := st.Sb + Nbi
  let Ssn := st.Ss + Nsi
  let NsList := st.Ns ++ [Nsi]
  let Vi := if c.doEconomicAnalysis then
      (Nbi + NsList.headD 0) * FVal.val (c.priceT.getD i 0)
    else 0
  { Sb := Sbn
    Ss := Ssn
    SbSeries := st.SbSeries ++ [Sbn]
    SsSeries := st.SsSeries ++ [Ssn]
    Tseries := st.Tseries ++ [Sbn + Ssn]
    Rb := Rb
    Rs := Rs
    Ab := st.Ab ++ [Abi]
    As := st.As ++ [Asi]
    Eb := st.Eb ++ [Ebi]
    Es := st.Es ++ [Esi]
    Nb := st.Nb ++ [Nbi]
    Ns := NsList
    V := st.V ++ [Vi] }

/-- The state before the transient loop (lines 215-236): stocks seeded from
the baseline reclass, total stock `T[0]`, and the first disturbed-carbon
ledgers `R[0] = D[0] * S[0]`. -/
def initState (c : Config) (p : PixelParams) : RunState where
  Sb := p.Sb0
  Ss := p.Ss0
  SbSeries := [p.Sb0]
  SsSeries := [p.Ss0]
  Tseries := [p.Sb0 + p.Ss0]
  Rb := (List.replicate c.transitions (0 : FVal)).set 0 (p.Db.getD 0 0 * p.Sb0)
  Rs := (List.replicate c.transitions (0 : FVal)).set 0 (p.Ds.getD 0 0 * p.Ss0)
  Ab := []
  As := []
  Eb := []
  Es := []
  Nb := []
  Ns := []
  V := []

/-- The engine state after the first `n` timesteps of the transient loop. -/
def runUpTo (c : Config) (p : PixelParams) (n : ℕ) : RunState :=
  (List.range n).foldl (step c p) (initState c p)

/-- The full per-pixel engine run, `for i in xrange(0, timesteps)`. -/
def runEngine (c : Config) (p : PixelParams) : RunState :=
  runUpTo c p c.timestepsNat

/-- Sum of a slice, modelling Python `sum(xs[a:b])` on per-timestep arrays. -/
def sliceSum (xs : List FVal) (a b : ℤ) : FVal :=
  ((xs.drop a.toNat).take (b - a).toNat).foldl (· + ·) 0

/-- Elementwise sum of two per-timestep series, e.g. `A_biomass + A_soil`. -/
def addSeries (xs ys : List FVal) : List FVal :=
  List.zipWith (· + ·) xs ys

/-- Per-period accumulation output `A_r[i]` (line 292). -/
def A_r_out (c : Config) (p : PixelParams) (i : ℕ) : FVal :=
  sliceSum (addSeries (runEngine c p).Ab (runEngine c p).As)
    (s_to_timestep c.snapshotYears i) (s_to_timestep c.snapshotYears (i + 1))

/-- Per-period emission output `E_r[i]` (line 294). -/
def E_r_out (c : Config) (p : PixelParams) (i : ℕ) : FVal :=
  sliceSum (addSeries (runEngine c p).Eb (runEngine c p).Es)
    (s_to_timestep c.snapshotYears i) (s_to_timestep c.snapshotYears (i + 1))

/-- Per-period net-sequestration output `N_r[i]` (line 296). -/
def N_r_out (c : Config) (p : PixelParams) (i : ℕ) : FVal :=
  sliceSum (addSeries (runEngine c p).Nb (runEngine c p).Ns)
    (s_to_timestep c.snapshotYears i) (s_to_timestep c.snapshotYears (i + 1))

/-- Per-snapshot total-stock output `T_s[i]` (lines 299-305): the total stock
at the snapshot's timestep plus the litter layer of the same snapshot (the
source's two `map(np.add, ...)` branches both pair index `i` with `L[i]`). -/
def T_s_out (c : Config) (p : PixelParams) (i : ℕ) : FVal :=
  (runEngine c p).Tseries.getD (s_to_timestep c.snapshotYears i).toNat 0 +
    p.L.getD i 0

/-- Whole-run total net sequestration `N_total = np.sum(N, axis=0)`. -/
def N_total_out (c : Config) (p : PixelParams) : FVal :=
  (addSeries (runEngine c p).Nb (runEngine c p).Ns).foldl (· + ·) 0

/-- Net-present-value output `NPV = np.sum(V, axis=0)`. -/
def NPV_out (c : Config) (p : PixelParams) : FVal :=
  (runEngine c p).V.foldl (· + ·) 0

/-- Embedding of the price-table comprehension of `_get_price_table`: walk the
listed years in order, collecting prices; the first year with no table entry
raises (`KeyError` naming that year, modelled as the error value). -/
def collectPrices (priceDict : ℤ → Option ℚ) : List ℤ → Except ℤ (List ℚ)
  | [] => .ok []
  | y :: ys =>
    match priceDict y with
    | none => .error y
    | some p =>
      match collectPrices priceDict ys with
      | .error m => .error m
      | .ok ps => .ok (p :: ps)

/-- The inclusive year range `xrange(start_year, end_year+1)`. -/
def yearsRange (startYear endYear : ℤ) : List ℤ :=
  (List.range (endYear + 1 - startYear).toNat).map
    (fun k : ℕ => startYear + (k : ℤ))

/-- Embedding of `_get_price_table`: one price per year from the first to the
last snapshot year inclusive, failing on the first missing year. -/
def get_price_table (priceDict : ℤ → Option ℚ) (startYear endYear : ℤ) :
    Except ℤ (List ℚ) :=
  collectPrices priceDict (yearsRange startYear endYear)

/-- Embedding of the Python check `sorted(transition_years) ==
transition_years`: true exactly when the list is non-decreasing. -/
def isChronological : List ℤ → Bool
  | [] => true
  | [_] => true
  | a :: b :: r => decide (a ≤ b) && isChronological (b :: r)

/-- Embedding of the year-validation part of `get_inputs` (lines 600-623), in
source order: reject transition years that are not chronological, build
`snapshot_years` from the baseline year and the transition years, reject an
analysis year not strictly greater than the last snapshot year, and return
`(snapshot_years, transitions, timesteps)`. -/
def get_inputs_validate (baselineYear : ℤ) (transitionYears : List ℤ)
    (analysisYear : Option ℤ) : Except String (List ℤ × ℕ × ℤ) :=
  if isChronological transitionYears = false then
    .error "LULC snapshot years must be provided in chronological order."
  else
    let transitions := transitionYears.length + 1
    let snap := baselineYear :: transitionYears
    match analysisYear with
    | some a =>
      if a ≤ snap.getLastD 0 then
        .error "Analysis year must be greater than last transition year."
      else
        .ok (snap ++ [a], transitions, (snap ++ [a]).getLastD 0 - baselineYear)
    | none => .ok (snap, transitions, snap.getLastD 0 - baselineYear)

/-- Embedding of `execute`'s control flow: `get_inputs` validation runs first;
only when it succeeds does the block loop read rasters and run the engine. -/
def executeModel (baselineYear : ℤ) (transitionYears : List ℤ)
    (analysisYear : Option ℤ) (doEcon : Bool) (priceT : List ℚ)
    (p : PixelParams) : Except String RunState :=
  match get_inputs_validate baselineYear transitionYears analysisYear with
  | .error e => .error e
  | .ok _ =>
    .ok (runEngine
      { baselineYear := baselineYear, transitionYears := transitionYears,
        analysisYear := analysisYear, doEconomicAnalysis := doEcon,
        priceT := priceT } p)

/-- Claim-side emission formula, modelled from the spec sentence of claim C2:
the same decay sum as the source's emission loop, but with
`j_year = transition_year[j] - first_year` where `first_year` is the first
snapshot (baseline) year, i.e. `snapshot_years[0]` instead of
`transition_years[0]`. -/
def emissionClaimBaselineAnchored (c : Config) (R : List FVal) (t : ℤ)
    (k : ℕ) : FVal :=
  ∑ j in Finset.range (min (k + 1) c.transitionYears.length),
    R.getD j 0 *
      FVal.val (decayTerm t (c.transitionYears.getD j 0 -
        c.snapshotYears.headD 0))

/-! ### Concrete scenarios -/

/-- Biomass disturbance lookup of the single-transition scenario: the pair of
codes `(A, B) = (1, 2)` maps to full disturbance `1.0`. -/
def dDb1 : ℤ × ℤ → Option ℚ := fun pq => if pq = (1, 2) then some 1 else none

/-- Soil disturbance lookup of the single-transition scenario: zero. -/
def dDs1 : ℤ × ℤ → Option ℚ := fun pq => if pq = (1, 2) then some 0 else none

/-- Zero yearly accumulation for codes `1` and `2`. -/
def dY01 : ℤ → Option ℚ := fun x => if x = 1 ∨ x = 2 then some 0 else none

/-- Initial biomass stock 10.0 for the baseline code `1`. -/
def dSb1 : ℤ → Option ℚ :=
  fun x => if x = 1 then some 10 else if x = 2 then some 0 else none

/-- Zero initial soil stock for codes `1` and `2`. -/
def dSs1 : ℤ → Option ℚ := fun x => if x = 1 ∨ x = 2 then some 0 else none

/-- Half-life 1 for codes `1` and `2` (parsed but unused by the loop). -/
def dH1 : ℤ → Option ℚ := fun x => if x = 1 ∨ x = 2 then some 1 else none

/-- Zero litter for codes `1` and `2`. -/
def dL1 : ℤ → Option ℚ := fun x => if x = 1 ∨ x = 2 then some 0 else none

/-- Single-transition full-disturbance scenario of claims C1/C2: baseline
year 2000 with code `A = 1`, one transition raster at year 2005 with code
`B = 2`, analysis year `2000 + T`. -/
def c1 (T : ℕ) : Config where
  baselineYear := 2000
  transitionYears := [2005]
  analysisYear := some (2000 + (T : ℤ))
  doEconomicAnalysis := false
  priceT := []

/-- Pixel parameters of the C1/C2 scenario, produced by the reclass block
from the codes `C_list = [1, 2, 2]` with nodata value `-1`. -/
def p1 : PixelParams :=
  buildPixelParams (cListOf 1 [2]) 2 dDb1 dDs1 dH1 dH1 dY01 dY01 dSb1 dSs1
    dL1 (-1)

/-- Yearly biomass accumulation 2.0 for the single code `7` of the
baseline-only scenario. -/
def dY5 : ℤ → Option ℚ := fun x => if x = 7 then some 2 else none

/-- Zero-valued lookup for code `7`. -/
def dZ5 : ℤ → Option ℚ := fun x => if x = 7 then some 0 else none

/-- Empty transition lookup (no disturbance pair is defined). -/
def dD5 : ℤ × ℤ → Option ℚ := fun _ => none

/-- Baseline-only scenario of claim C5: no transition rasters, analysis year
10 years after the baseline year. -/
def c5 : Config where
  baselineYear := 2000
  transitionYears := []
  analysisYear := some 2010
  doEconomicAnalysis := false
  priceT := []

/-- Pixel parameters of the C5 scenario: initial stock 0, yearly biomass
accumulation 2.0. -/
def p5 : PixelParams :=
  buildPixelParams (cListOf 7 []) 1 dD5 dD5 dZ5 dZ5 dY5 dZ5 dZ5 dZ5 dZ5 (-1)

/-- Empty land-cover lookup: no code is mapped. -/
def dnone : ℤ → Option ℚ := fun _ => none

/-- Baseline-only two-snapshot run used for the C3 counterexample. -/
def cX : Config where
  baselineYear := 2000
  transitionYears := []
  analysisYear := some 2005
  doEconomicAnalysis := false
  priceT := []

/-- Pixel parameters of a pixel whose land-cover code equals the baseline
nodata value `-1`: every reclass output is NaN. -/
def pX : PixelParams :=
  buildPixelParams (cListOf (-1) []) 1 dD5 dD5 dnone dnone dnone dnone dnone
    dnone dnone (-1)

/-- Baseline-only run with economic analysis enabled, for the C7 witness. -/
def c7w : Config where
  baselineYear := 2000
  transitionYears := []
  analysisYear := some 2002
  doEconomicAnalysis := true
  priceT := [1, 1, 1]

/-- Price table with a single entry, used for the C8 witness: years 2001 and
2002 are missing. -/
def dPrice8 : ℤ → Option ℚ := fun y => if y = 2000 then some 10 else none

/-- Run with one transition raster, used for the C3 witness. -/
def cW3 : Config where
  baselineYear := 2000
  transitionYears := [2005]
  analysisYear := some 2010
  doEconomicAnalysis := false
  priceT := []

/-- Pixel of the C3 witness: the code is the nodata value `-1` in the
baseline and in the transition raster. -/
def pW3 : PixelParams :=
  buildPixelParams (List.replicate 3 (-1)) 2 dD5 dD5 dnone dnone dnone dnone
    dnone dnone dnone (-1)

/-! ### Arithmetic lemmas for cell values -/

namespace FVal

theorem add_def (a b : ℚ) : val a + val b = val (a + b) := rfl

theorem nan_add (x : FVal) : nan + x = nan := rfl

theorem add_nan (x : FVal) : x + nan = nan := by cases x <;> rfl

theorem nan_mul (x : FVal) : nan * x = nan := rfl

theorem nan_sub (x : FVal) : nan - x = nan := rfl

theorem sub_nan (x : FVal) : x - nan = nan := by cases x <;> rfl

theorem addAssoc (a b c : FVal) : a + b + c = a + (b + c) := add_assoc a b c

theorem addComm (a b : FVal) : a + b = b + a := add_comm a b

theorem zeroAdd (a : FVal) : 0 + a = a := zero_add a

theorem addZero (a : FVal) : a + 0 = a := add_zero a

end FVal

/-! ### Helper lemmas about lists -/

theorem headD_eq_getD_zero {α : Type} (l : List α) (d : α) :
    l.headD d = l.getD 0 d := by
  cases l <;> rfl

theorem getLastD_eq_getD (l : List ℤ) (h : l ≠ []) (d : ℤ) :
    l.getLastD d = l.getD (l.length - 1) 0 := by
  induction l generalizing d with
  | nil => exact absurd rfl h
  | cons a t ih =>
    cases t with
    | nil => rfl
    | cons b r =>
      rw [List.getLastD_cons, ih (by simp) a]
      simp

theorem getD_lt_getD_of_chain (s : List ℤ) (h : List.Chain' (· < ·) s)
    {i j : ℕ} (hij : i < j) (hj : j < s.length) :
    s.getD i 0 < s.getD j 0 := by
  have hp : List.Pairwise (· < ·) s := List.chain'_iff_pairwise.mp h
  have hi : i < s.length := Nat.lt_trans hij hj
  rw [List.getD_eq_getElem s 0 hi, List.getD_eq_getElem s 0 hj]
  exact List.pairwise_iff_getElem.mp hp i j hi hj hij

/-! ### Specification lemmas for the timestep-to-transition scan -/

theorem tttAux_some_bounds (s : List ℤ) (t : ℤ) :
    ∀ fuel i j, tttAux s t i fuel = some j → i ≤ j ∧ j < i + fuel := by
  intro fuel
  induction fuel with
  | zero => intro i j h; simp [tttAux] at h
  | succ n ih =>
    intro i j h
    rw [tttAux] at h
    by_cases hc : t < s.getD (i + 1) 0 - s.headD 0
    · rw [if_pos hc] at h
      have hij : i = j := Option.some.inj h
      omega
    · rw [if_neg hc] at h
      have := ih (i + 1) j h
      omega

theorem tttAux_some_found (s : List ℤ) (t : ℤ) :
    ∀ fuel i j, tttAux s t i fuel = some j →
      t < s.getD (j + 1) 0 - s.headD 0 ∧
        ∀ m, i ≤ m → m < j → ¬t < s.getD (m + 1) 0 - s.headD 0 := by
  intro fuel
  induction fuel with
  | zero => intro i j h; simp [tttAux] at h
  | succ n ih =>
    intro i j h
    rw [tttAux] at h
    by_cases hc : t < s.getD (i + 1) 0 - s.headD 0
    · rw [if_pos hc] at h
      obtain rfl : i = j := Option.some.inj h
      exact ⟨hc, fun m h1 h2 => absurd (Nat.lt_of_le_of_lt h1 h2)
        (Nat.lt_irrefl _)⟩
    · rw [if_neg hc] at h
      obtain ⟨hfound, hmin⟩ := ih (i + 1) j h
      refine ⟨hfound, fun m h1 h2 hm => ?_⟩
      rcases Nat.eq_or_lt_of_le h1 with h1 | h1
      · exact hc (h1 ▸ hm)
      · exact hmin m h1 h2 hm

theorem tttAux_isSome (s : List ℤ) (t : ℤ) :
    ∀ fuel i, (∃ k, k < fuel ∧ t < s.getD (i + k + 1) 0 - s.headD 0) →
      ∃ j, tttAux s t i fuel = some j := by
  intro fuel
  induction fuel with
  | zero => intro i ⟨k, hk, _⟩; omega
  | succ n ih =>
    intro i ⟨k, hk, hlt⟩
    rw [tttAux]
    by_cases hc : t < s.getD (i + 1) 0 - s.headD 0
    · exact ⟨i, by rw [if_pos hc]⟩
    · have hk0 : k ≠ 0 := by
        intro h0
        subst h0
        exact hc (by simpa using hlt)
      obtain ⟨j, hj⟩ := ih (i + 1)
        ⟨k - 1, by omega, by
          have heq : i + 1 + (k - 1) + 1 = i + k + 1 := by omega
          rw [heq]; exact hlt⟩
      exact ⟨j, by rw [if_neg hc]; exact hj⟩

/-- For timesteps within the run the scan always finds an index: it is below
`transitions` and its final bounds check reads `snapshot_years[j+1]` in
bounds (every earlier iteration read a smaller index). -/
theorem timestep_to_transition_idx_spec (s : List ℤ) (transitions : ℕ)
    (t : ℤ) (hlen : 2 ≤ s.length)
    (hrel : s.length ≤ transitions + 1)
    (ht : t < s.getLastD 0 - s.headD 0) :
    ∃ j, timestep_to_transition_idx s transitions t = some j ∧
      j < transitions ∧ j + 1 < s.length := by
  have hne : s ≠ [] := by
    intro h
    rw [h] at hlen
    simp at hlen
  have hlast : s.getLastD 0 = s.getD (s.length - 1) 0 := getLastD_eq_getD s hne 0
  have hk : s.length - 2 < transitions := by omega
  have hcond : t < s.getD (s.length - 2 + 1) 0 - s.headD 0 := by
    have : s.length - 2 + 1 = s.length - 1 := by omega
    rw [this, ← hlast]
    exact ht
  obtain ⟨j, hj⟩ := tttAux_isSome s t transitions 0
    ⟨s.length - 2, hk, by simpa using hcond⟩
  refine ⟨j, hj, ?_, ?_⟩
  · have := tttAux_some_bounds s t transitions 0 j hj
    omega
  · obtain ⟨_, hmin⟩ := tttAux_some_found s t transitions 0 j hj
    by_contra hge
    have hj2 : s.length - 2 < j := by omega
    exact hmin (s.length - 2) (Nat.zero_le _) hj2 hcond

/-- The raw index the engine uses, `getD 0` of the scan result, is always
below `transitions`. -/
theorem idx_getD_lt_transitions (s : List ℤ) (transitions : ℕ) (t : ℤ)
    (h : 1 ≤ transitions) :
    (timestep_to_transition_idx s transitions t).getD 0 < transitions := by
  cases hr : timestep_to_transition_idx s transitions t with
  | none => simpa using h
  | some j =>
    have := tttAux_some_bounds s t transitions 0 j hr
    simpa using this.2

/-! ### Structural lemmas about the engine fold -/

theorem runUpTo_zero (c : Config) (p : PixelParams) :
    runUpTo c p 0 = initState c p := rfl

theorem runUpTo_succ (c : Config) (p : PixelParams) (k : ℕ) :
    runUpTo c p (k + 1) = step c p (runUpTo c p k) k := by
  unfold runUpTo
  rw [List.range_succ, List.foldl_append]
  rfl

section StepProjections

variable (c : Config) (p : PixelParams) (st : RunState) (i : ℕ)

theorem step_Rb : (step c p st i).Rb =
    if is_transition_year c.snapshotYears c.transitions i then
      st.Rb.set (idxAt c i) (p.Db.getD (idxAt c i) 0 * st.Sb)
    else st.Rb := rfl

theorem step_Rs : (step c p st i).Rs =
    if is_transition_year c.snapshotYears c.transitions i then
      st.Rs.set (idxAt c i) (p.Ds.getD (idxAt c i) 0 * st.Ss)
    else st.Rs := rfl

theorem step_Eb : (step c p st i).Eb = st.Eb ++
    [emitLoop ((step c p st i).Rb) c.transitionYears i 0 (idxAt c i + 1)] :=
  rfl

theorem step_Es : (step c p st i).Es = st.Es ++
    [emitLoop ((step c p st i).Rs) c.transitionYears i 0 (idxAt c i + 1)] :=
  rfl

theorem step_Ab : (step c p st i).Ab = st.Ab ++ [p.Yb.getD (idxAt c i) 0] :=
  rfl

theorem step_As : (step c p st i).As = st.As ++ [p.Ys.getD (idxAt c i) 0] :=
  rfl

theorem step_Nb : (step c p st i).Nb = st.Nb ++
    [p.Yb.getD (idxAt c i) 0 -
      emitLoop ((step c p st i).Rb) c.transitionYears i 0 (idxAt c i + 1)] :=
  rfl

theorem step_Ns : (step c p st i).Ns = st.Ns ++
    [p.Ys.getD (idxAt c i) 0 -
      emitLoop ((step c p st i).Rs) c.transitionYears i 0 (idxAt c i + 1)] :=
  rfl

theorem step_Sb : (step c p st i).Sb = st.Sb +
    (p.Yb.getD (idxAt c i) 0 -
      emitLoop ((step c p st i).Rb) c.transitionYears i 0 (idxAt c i + 1)) :=
  rfl

theorem step_Ss : (step c p st i).Ss = st.Ss +
    (p.Ys.getD (idxAt c i) 0 -
      emitLoop ((step c p st i).Rs) c.transitionYears i 0 (idxAt c i + 1)) :=
  rfl

theorem step_Tseries : (step c p st i).Tseries = st.Tseries ++
    [(step c p st i).Sb + (step c p st i).Ss] := rfl

theorem step_SbSeries : (step c p st i).SbSeries = st.SbSeries ++
    [(step c p st i).Sb] := rfl

theorem step_SsSeries : (step c p st i).SsSeries = st.SsSeries ++
    [(step c p st i).Ss] := rfl

theorem step_V : (step c p st i).V = st.V ++
    [if c.doEconomicAnalysis then
        ((p.Yb.getD (idxAt c i) 0 -
            emitLoop ((step c p st i).Rb) c.transitionYears i 0
              (idxAt c i + 1)) +
          (step c p st i).Ns.headD 0) * FVal.val (c.priceT.getD i 0)
      else 0] := rfl

end StepProjections

theorem runUpTo_Eb_length (c : Config) (p : PixelParams) :
    ∀ k, (runUpTo c p k).Eb.length = k := by
  intro k
  induction k with
  | zero => rfl
  | succ n ih => rw [runUpTo_succ, step_Eb, List.length_append, ih]; rfl

theorem runUpTo_Es_length (c : Config) (p : PixelParams) :
    ∀ k, (runUpTo c p k).Es.length = k := by
  intro k
  induction k with
  | zero => rfl
  | succ n ih => rw [runUpTo_succ, step_Es, List.length_append, ih]; rfl

theorem runUpTo_Ab_length (c : Config) (p : PixelParams) :
    ∀ k, (runUpTo c p k).Ab.length = k := by
  intro k
  induction k with
  | zero => rfl
  | succ n ih => rw [runUpTo_succ, step_Ab, List.length_append, ih]; rfl

theorem runUpTo_As_length (c : Config) (p : PixelParams) :
    ∀ k, (runUpTo c p k).As.length = k := by
  intro k
  induction k with
  | zero => rfl
  | succ n ih => rw [runUpTo_succ, step_As, List.length_append, ih]; rfl

theorem runUpTo_Nb_length (c : Config) (p : PixelParams) :
    ∀ k, (runUpTo c p k).Nb.length = k := by
  intro k
  induction k with
  | zero => rfl
  | succ n ih => rw [runUpTo_succ, step_Nb, List.length_append, ih]; rfl

theorem runUpTo_Ns_length (c : Config) (p : PixelParams) :
    ∀ k, (runUpTo c p k).Ns.length = k := by
  intro k
  induction k with
  | zero => rfl
  | succ n ih => rw [runUpTo_succ, step_Ns, List.length_append, ih]; rfl

theorem runUpTo_V_length (c : Config) (p : PixelParams) :
    ∀ k, (runUpTo c p k).V.length = k := by
  intro k
  induction k with
  | zero => rfl
  | succ n ih => rw [runUpTo_succ, step_V, List.length_append, ih]; rfl

theorem runUpTo_Tseries_length (c : Config) (p : PixelParams) :
    ∀ k, (runUpTo c p k).Tseries.length = k + 1 := by
  intro k
  induction k with
  | zero => rfl
  | succ n ih => rw [runUpTo_succ, step_Tseries, List.length_append, ih]; rfl

theorem runUpTo_Rb_length (c : Config) (p : PixelParams) :
    ∀ k, (runUpTo c p k).Rb.length = c.transitions := by
  intro k
  induction k with
  | zero => simp [runUpTo_zero, initState]
  | succ n ih =>
    rw [runUpTo_succ, step_Rb]
    by_cases h : is_transition_year c.snapshotYears c.transitions n
    · rw [if_pos h, List.length_set, ih]
    · rw [if_neg h, ih]

theorem runUpTo_Rs_length (c : Config) (p : PixelParams) :
    ∀ k, (runUpTo c p k).Rs.length = c.transitions := by
  intro k
  induction k with
  | zero => simp [runUpTo_zero, initState]
  | succ n ih =>
    rw [runUpTo_succ, step_Rs]
    by_cases h : is_transition_year c.snapshotYears c.transitions n
    · rw [if_pos h, List.length_set, ih]
    · rw [if_neg h, ih]

theorem getD_append_length (l : List FVal) (x : FVal) :
    (l ++ [x]).getD l.length 0 = x := by
  rw [List.getD_append_right _ _ _ _ (Nat.le_refl _)]
  simp

/-- Entries of an append-only series never change once written. -/
theorem runUpTo_getD_stable (c : Config) (p : PixelParams)
    (f : RunState → List FVal)
    (hstep : ∀ st i, ∃ x, f (step c p st i) = f st ++ [x])
    {k1 k2 t : ℕ} (hk : k1 ≤ k2) (ht : t < (f (runUpTo c p k1)).length) :
    (f (runUpTo c p k2)).getD t 0 = (f (runUpTo c p k1)).getD t 0 := by
  have hmono : ∀ m, k1 ≤ m →
      (f (runUpTo c p k1)).length ≤ (f (runUpTo c p m)).length := by
    intro m hm
    induction m, hm using Nat.le_induction with
    | base => exact Nat.le_refl _
    | succ n hn ih =>
      obtain ⟨x, hx⟩ := hstep (runUpTo c p n) n
      rw [runUpTo_succ, hx, List.length_append]
      omega
  induction k2, hk using Nat.le_induction with
  | base => rfl
  | succ n hn ih =>
    obtain ⟨x, hx⟩ := hstep (runUpTo c p n) n
    rw [runUpTo_succ, hx,
      List.getD_append _ _ _ _ (Nat.lt_of_lt_of_le ht (hmono n hn))]
    exact ih

/-! ### Sums of series -/

theorem foldl_add_eq_add_sum (l : List FVal) :
    ∀ a : FVal, l.foldl (· + ·) a = a + l.sum := by
  induction l with
  | nil => intro a; simp
  | cons h t ih =>
    intro a
    rw [List.foldl_cons, ih, List.sum_cons, add_assoc]

theorem foldl_add_nan (l : List FVal) :
    l.foldl (· + ·) FVal.nan = FVal.nan := by
  rw [foldl_add_eq_add_sum]
  exact FVal.nan_add _

theorem foldl_add_eq_nan_of_mem (l : List FVal) (a : FVal)
    (h : FVal.nan ∈ l) : l.foldl (· + ·) a = FVal.nan := by
  induction l generalizing a with
  | nil => cases h
  | cons x t ih =>
    rw [List.foldl_cons]
    rcases List.mem_cons.mp h with h1 | h1
    · subst h1
      rw [FVal.add_nan]
      exact foldl_add_nan t
    · exact ih (a + x) h1

theorem take_drop_sum (xs : List FVal) (a : ℕ) :
    ∀ n, ((xs.drop a).take n).sum = ∑ t in Finset.Ico a (a + n), xs.getD t 0 := by
  intro n
  induction n with
  | zero => simp
  | succ m ih =>
    rw [List.take_succ, List.sum_append, ih, Nat.add_succ,
      Finset.sum_Ico_succ_top (Nat.le_add_right a m)]
    congr 1
    cases hx : (xs.drop a)[m]? with
    | none =>
      have hge : xs.length ≤ a + m := by
        have := List.getElem?_eq_none_iff.mp hx
        rw [List.length_drop] at this
        omega
      have hnone : xs[a + m]? = none := List.getElem?_eq_none_iff.mpr hge
      simp [List.getD_eq_default _ _ hge, hnone]
    | some v =>
      have hv : xs[a + m]? = some v := by
        rw [← List.getElem?_drop]
        exact hx
      have hlt : a + m < xs.length := by
        by_contra hge
        rw [List.getElem?_eq_none_iff.mpr (by omega)] at hv
        cases hv
      rw [List.getD_eq_getElem _ _ hlt]
      have := List.getElem?_eq_getElem hlt
      rw [this] at hv
      simpa using (Option.some.inj hv).symm

theorem sliceSum_eq_sum (xs : List FVal) (a b : ℤ) :
    sliceSum xs a b =
      ∑ t in Finset.Ico a.toNat (a.toNat + (b - a).toNat), xs.getD t 0 := by
  rw [sliceSum, foldl_add_eq_add_sum, zero_add, take_drop_sum]

theorem addSeries_getD (xs ys : List FVal) (t : ℕ) (hx : t < xs.length)
    (hy : t < ys.length) :
    (addSeries xs ys).getD t 0 = xs.getD t 0 + ys.getD t 0 := by
  have hz : t < (addSeries xs ys).length := by
    rw [addSeries, List.length_zipWith]
    omega
  rw [addSeries] at hz ⊢
  rw [List.getD_eq_getElem _ _ hz, List.getElem_zipWith,
    List.getD_eq_getElem _ _ hx, List.getD_eq_getElem _ _ hy]

theorem map_range_sum (f : ℕ → ℚ) :
    ∀ n, ((List.range n).map (fun t => FVal.val (f t))).sum =
      FVal.val (∑ t in Finset.range n, f t) := by
  intro n
  induction n with
  | zero => simp; rfl
  | succ m ih =>
    rw [List.range_succ, List.map_append, List.sum_append, ih,
      Finset.sum_range_succ, List.map_cons, List.map_nil, List.sum_cons,
      List.sum_nil, FVal.addZero, FVal.add_def]

/-- Unfolding of the emission loop as a finite sum over the transition
indices that have an associated transition year. -/
theorem emitLoop_eq_sum (R : List FVal) (ty : List ℤ) (t : ℤ) :
    ∀ fuel idx, emitLoop R ty t idx fuel =
      ∑ m in Finset.range (min fuel (ty.length - idx)),
        R.getD (idx + m) 0 *
          FVal.val (decayTerm t (ty.getD (idx + m) 0 - ty.headD 0)) := by
  intro fuel
  induction fuel with
  | zero => intro idx; simp [emitLoop]
  | succ n ih =>
    intro idx
    rw [emitLoop]
    cases hy : ty.get? idx with
    | none =>
      have hge : ty.length ≤ idx := List.get?_eq_none.mp hy
      rw [Nat.sub_eq_zero_of_le hge]
      simp
    | some y =>
      obtain ⟨hlt, hget⟩ := List.get?_eq_some.mp hy
      have hmin : min (n + 1) (ty.length - idx) =
          min n (ty.length - (idx + 1)) + 1 := by omega
      have hy0 : ty.getD idx 0 = y := by
        rw [List.getD_eq_getD_get?, hy]
        rfl
      rw [ih (idx + 1), hmin, Finset.sum_range_succ']
      refine Eq.trans ?_ (FVal.addComm _ _)
      simp only [Nat.add_zero, hy0]
      congr 1
      refine Finset.sum_congr rfl (fun i _ => ?_)
      have heq : idx + 1 + i = idx + (i + 1) := by omega
      simp only [heq]

theorem getD_append_length_eq (l : List FVal) (x : FVal) (n : ℕ)
    (h : l.length = n) : (l ++ [x]).getD n 0 = x := by
  subst h
  exact getD_append_length l x

theorem sum_eq_sum_range_getD (l : List FVal) :
    l.sum = ∑ t in Finset.range l.length, l.getD t 0 := by
  have h := take_drop_sum l 0 l.length
  rw [List.drop_zero, List.take_length, Nat.zero_add] at h
  rw [h, Finset.range_eq_Ico]

/-! ### The value of each series entry at the timestep that wrote it -/

theorem runEngine_eq_runUpTo (c : Config) (p : PixelParams) :
    runEngine c p = runUpTo c p c.timestepsNat := rfl

theorem runUpTo_Eb_getD_succ (c : Config) (p : PixelParams) (t : ℕ) :
    (runUpTo c p (t + 1)).Eb.getD t 0 =
      emitLoop ((runUpTo c p (t + 1)).Rb) c.transitionYears t 0
        (idxAt c t + 1) := by
  rw [runUpTo_succ, step_Eb]
  exact getD_append_length_eq _ _ _ (runUpTo_Eb_length c p t)

theorem runUpTo_Es_getD_succ (c : Config) (p : PixelParams) (t : ℕ) :
    (runUpTo c p (t + 1)).Es.getD t 0 =
      emitLoop ((runUpTo c p (t + 1)).Rs) c.transitionYears t 0
        (idxAt c t + 1) := by
  rw [runUpTo_succ, step_Es]
  exact getD_append_length_eq _ _ _ (runUpTo_Es_length c p t)

theorem runUpTo_Nb_getD_succ (c : Config) (p : PixelParams) (t : ℕ) :
    (runUpTo c p (t + 1)).Nb.getD t 0 =
      p.Yb.getD (idxAt c t) 0 -
        emitLoop ((runUpTo c p (t + 1)).Rb) c.transitionYears t 0
          (idxAt c t + 1) := by
  rw [runUpTo_succ, step_Nb]
  exact getD_append_length_eq _ _ _ (runUpTo_Nb_length c p t)

theorem runUpTo_V_getD_succ (c : Config) (p : PixelParams) (t : ℕ) :
    (runUpTo c p (t + 1)).V.getD t 0 =
      if c.doEconomicAnalysis then
        ((p.Yb.getD (idxAt c t) 0 -
            emitLoop ((runUpTo c p (t + 1)).Rb) c.transitionYears t 0
              (idxAt c t + 1)) +
          (runUpTo c p (t + 1)).Ns.headD 0) *
          FVal.val (c.priceT.getD t 0)
      else 0 := by
  rw [runUpTo_succ, step_V]
  exact getD_append_length_eq _ _ _ (runUpTo_V_length c p t)

theorem runEngine_Eb_getD (c : Config) (p : PixelParams) {t : ℕ}
    (ht : t < c.timestepsNat) :
    (runEngine c p).Eb.getD t 0 = (runUpTo c p (t + 1)).Eb.getD t 0 := by
  rw [runEngine_eq_runUpTo]
  exact runUpTo_getD_stable c p (fun st => st.Eb) (fun st i => ⟨_, rfl⟩)
    ht (by rw [runUpTo_Eb_length]; omega)

theorem runEngine_Es_getD (c : Config) (p : PixelParams) {t : ℕ}
    (ht : t < c.timestepsNat) :
    (runEngine c p).Es.getD t 0 = (runUpTo c p (t + 1)).Es.getD t 0 := by
  rw [runEngine_eq_runUpTo]
  exact runUpTo_getD_stable c p (fun st => st.Es) (fun st i => ⟨_, rfl⟩)
    ht (by rw [runUpTo_Es_length]; omega)

theorem runEngine_Nb_getD (c : Config) (p : PixelParams) {t : ℕ}
    (ht : t < c.timestepsNat) :
    (runEngine c p).Nb.getD t 0 = (runUpTo c p (t + 1)).Nb.getD t 0 := by
  rw [runEngine_eq_runUpTo]
  exact runUpTo_getD_stable c p (fun st => st.Nb) (fun st i => ⟨_, rfl⟩)
    ht (by rw [runUpTo_Nb_length]; omega)

theorem runEngine_Ns_getD_zero (c : Config) (p : PixelParams) {t : ℕ}
    (ht : t < c.timestepsNat) :
    (runEngine c p).Ns.getD 0 0 = (runUpTo c p (t + 1)).Ns.getD 0 0 := by
  rw [runEngine_eq_runUpTo]
  exact runUpTo_getD_stable c p (fun st => st.Ns) (fun st i => ⟨_, rfl⟩)
    ht (by rw [runUpTo_Ns_length]; omega)

theorem runEngine_V_getD (c : Config) (p : PixelParams) {t : ℕ}
    (ht : t < c.timestepsNat) :
    (runEngine c p).V.getD t 0 = (runUpTo c p (t + 1)).V.getD t 0 := by
  rw [runEngine_eq_runUpTo]
  exact runUpTo_getD_stable c p (fun st => st.V) (fun st i => ⟨_, rfl⟩)
    ht (by rw [runUpTo_V_length]; omega)

/-! ### Lemmas for the price table -/

theorem collectPrices_error_of_missing (d : ℤ → Option ℚ) :
    ∀ ys : List ℤ, (∃ y ∈ ys, d y = none) →
      ∃ y, y ∈ ys ∧ d y = none ∧ collectPrices d ys = .error y := by
  intro ys
  induction ys with
  | nil => rintro ⟨y, hy, _⟩; cases hy
  | cons z zs ih =>
    rintro ⟨y, hy, hnone⟩
    cases hz : d z with
    | none =>
      exact ⟨z, List.mem_cons_self z zs, hz, by rw [collectPrices, hz]⟩
    | some pz =>
      have hyzs : y ∈ zs := by
        rcases List.mem_cons.mp hy with h | h
        · subst h; rw [hz] at hnone; cases hnone
        · exact h
      obtain ⟨y2, hy2, hn2, herr⟩ := ih ⟨y, hyzs, hnone⟩
      refine ⟨y2, List.mem_cons_of_mem z hy2, hn2, ?_⟩
      rw [collectPrices, hz, herr]

theorem mem_yearsRange (s e y : ℤ) : y ∈ yearsRange s e ↔ s ≤ y ∧ y ≤ e := by
  rw [yearsRange]
  constructor
  · intro h
    obtain ⟨k, hk, rfl⟩ := List.mem_map.mp h
    have hk2 := List.mem_range.mp hk
    omega
  · rintro ⟨h1, h2⟩
    refine List.mem_map.mpr ⟨(y - s).toNat, List.mem_range.mpr (by omega),
      by omega⟩

/-! ### NaN propagation through the engine -/

theorem FVal.mul_def (a b : ℚ) :
    FVal.val a * FVal.val b = FVal.val (a * b) := rfl

theorem FVal.sub_def (a b : ℚ) :
    FVal.val a - FVal.val b = FVal.val (a - b) := rfl

theorem getD_replicate {α : Type} (n : ℕ) (x d : α) {i : ℕ} (h : i < n) :
    (List.replicate n x).getD i d = x := by
  rw [List.getD_eq_getElem _ _ (by simpa using h)]
  simp

theorem getD_set_self (l : List FVal) (i : ℕ) (x : FVal)
    (h : i < l.length) : (l.set i x).getD i 0 = x := by
  rw [List.getD_eq_getElem _ _ (by simpa using h)]
  exact List.getElem_set_self _

theorem getD_set_ne (l : List FVal) {i m : ℕ} (x : FVal) (h : i ≠ m) :
    (l.set i x).getD m 0 = l.getD m 0 := by
  rw [List.getD_eq_getD_get?, List.getD_eq_getD_get?]
  congr 1
  simpa using List.getElem?_set_ne h

theorem idxAt_ne_zero_of_transition_year (s : List ℤ) (tr : ℕ) (t : ℤ)
    (h : is_transition_year s tr t = true) :
    (timestep_to_transition_idx s tr t).getD 0 ≠ 0 := by
  unfold is_transition_year at h
  rw [Bool.and_eq_true] at h
  obtain ⟨-, h2⟩ := h
  cases hr : timestep_to_transition_idx s tr t with
  | none => rw [hr] at h2; simp [idxTruthy] at h2
  | some j =>
    rw [hr] at h2
    cases j with
    | zero => simp [idxTruthy] at h2
    | succ m => simp

theorem idxAt_ne_zero_of_ty (c : Config) (k : ℕ)
    (h : is_transition_year c.snapshotYears c.transitions k = true) :
    idxAt c k ≠ 0 :=
  idxAt_ne_zero_of_transition_year _ _ _ h

theorem reclass1_nodata (d : ℤ → Option ℚ) (mask : ℤ) (hm : mask ≠ 0) :
    reclass1 mask d mask = FVal.nan := by
  unfold reclass1
  rw [if_pos ⟨hm, rfl⟩]

theorem reclassTransition1_nodata (b : ℤ) (d : ℤ × ℤ → Option ℚ) (mask : ℤ)
    (hm : mask ≠ 0) : reclassTransition1 mask b d mask = FVal.nan := by
  unfold reclassTransition1
  rw [if_pos ⟨hm, rfl⟩]

theorem map_range_eq_replicate (f : ℕ → FVal) (n : ℕ)
    (h : ∀ i, i < n → f i = FVal.nan) :
    (List.range n).map f = List.replicate n FVal.nan := by
  apply List.ext_getElem
  · simp
  · intro i h1 h2
    simp only [List.getElem_map, List.getElem_range, List.getElem_replicate]
    exact h i (by simpa using h1)

/-- At a pixel whose code is the (truthy) nodata value in the baseline and in
every transition raster, every reclassified parameter is NaN. -/
theorem buildPixelParams_nodata (tr : ℕ) (dDb dDs : ℤ × ℤ → Option ℚ)
    (dHb dHs dYb dYs dSb dSs dL : ℤ → Option ℚ) (mask : ℤ)
    (hm : mask ≠ 0) :
    buildPixelParams (List.replicate (tr + 1) mask) tr dDb dDs dHb dHs dYb
        dYs dSb dSs dL mask =
      { Sb0 := FVal.nan, Ss0 := FVal.nan
        Yb := List.replicate tr FVal.nan, Ys := List.replicate tr FVal.nan
        Db := List.replicate tr FVal.nan, Ds := List.replicate tr FVal.nan
        Hb := List.replicate tr FVal.nan, Hs := List.replicate tr FVal.nan
        L := List.replicate (tr + 1) FVal.nan } := by
  unfold buildPixelParams
  simp only [PixelParams.mk.injEq, List.length_replicate]
  refine ⟨?_, ?_, ?_, ?_, ?_, ?_, ?_, ?_, ?_⟩
  · rw [getD_replicate _ _ _ (by omega)]
    exact reclass1_nodata dSb mask hm
  · rw [getD_replicate _ _ _ (by omega)]
    exact reclass1_nodata dSs mask hm
  · exact map_range_eq_replicate _ _ (fun i hi => by
      rw [getD_replicate _ _ _ (by omega)]
      exact reclass1_nodata dYb mask hm)
  · exact map_range_eq_replicate _ _ (fun i hi => by
      rw [getD_replicate _ _ _ (by omega)]
      exact reclass1_nodata dYs mask hm)
  · exact map_range_eq_replicate _ _ (fun i hi => by
      rw [getD_replicate _ _ _ (by omega), getD_replicate _ _ _ (by omega)]
      exact reclassTransition1_nodata mask dDb mask hm)
  · exact map_range_eq_replicate _ _ (fun i hi => by
      rw [getD_replicate _ _ _ (by omega), getD_replicate _ _ _ (by omega)]
      exact reclassTransition1_nodata mask dDs mask hm)
  · exact map_range_eq_replicate _ _ (fun i hi => by
      rw [getD_replicate _ _ _ (by omega)]
      exact reclass1_nodata dHb mask hm)
  · exact map_range_eq_replicate _ _ (fun i hi => by
      rw [getD_replicate _ _ _ (by omega)]
      exact reclass1_nodata dHs mask hm)
  · exact map_range_eq_replicate _ _ (fun i hi => by
      rw [getD_replicate _ _ _ (by omega)]
      exact reclass1_nodata dL mask hm)

/-- When the first disturbed-carbon ledger entry is NaN and there is at least
one transition year, the emission loop produces NaN. -/
theorem emitLoop_nan_head (R : List FVal) (ty : List ℤ) (t : ℤ) (fuel : ℕ)
    (hR : R.getD 0 0 = FVal.nan) (hty : ty ≠ []) :
    emitLoop R ty t 0 (fuel + 1) = FVal.nan := by
  cases ty with
  | nil => exact absurd rfl hty
  | cons y0 tys =>
    have hstep : emitLoop R (y0 :: tys) t 0 (fuel + 1) =
        R.getD 0 0 * FVal.val (decayTerm t (y0 - (y0 :: tys).headD 0)) +
          emitLoop R (y0 :: tys) t 1 fuel := rfl
    rw [hstep, hR, FVal.nan_mul, FVal.nan_add]

theorem transitions_pos (c : Config) : 0 < c.transitions := by
  unfold Config.transitions
  omega

/-- One engine step at an all-NaN pixel: stocks stay NaN, the first ledger
entries stay NaN, and every appended series entry is NaN. -/
theorem step_nan (c : Config) (p : PixelParams) (st : RunState) (k : ℕ)
    (hYb : p.Yb = List.replicate c.transitions FVal.nan)
    (hYs : p.Ys = List.replicate c.transitions FVal.nan)
    (hty : c.transitionYears ≠ [])
    (hSb : st.Sb = FVal.nan) (hSs : st.Ss = FVal.nan)
    (hRb : st.Rb.getD 0 0 = FVal.nan) (hRs : st.Rs.getD 0 0 = FVal.nan) :
    (step c p st k).Sb = FVal.nan ∧ (step c p st k).Ss = FVal.nan ∧
    (step c p st k).Rb.getD 0 0 = FVal.nan ∧
    (step c p st k).Rs.getD 0 0 = FVal.nan ∧
    (step c p st k).Ab = st.Ab ++ [FVal.nan] ∧
    (step c p st k).As = st.As ++ [FVal.nan] ∧
    (step c p st k).Eb = st.Eb ++ [FVal.nan] ∧
    (step c p st k).Es = st.Es ++ [FVal.nan] ∧
    (step c p st k).Nb = st.Nb ++ [FVal.nan] ∧
    (step c p st k).Ns = st.Ns ++ [FVal.nan] ∧
    (step c p st k).V = st.V ++
      [if c.doEconomicAnalysis then FVal.nan else 0] ∧
    (step c p st k).Tseries = st.Tseries ++ [FVal.nan] := by
  have hidx : idxAt c k < c.transitions :=
    idx_getD_lt_transitions _ _ _ (transitions_pos c)
  have hRb2 : (step c p st k).Rb.getD 0 0 = FVal.nan := by
    rw [step_Rb]
    by_cases hb : is_transition_year c.snapshotYears c.transitions k
    · rw [if_pos hb, getD_set_ne _ _ (idxAt_ne_zero_of_ty c k hb)]
      exact hRb
    · rw [if_neg hb]
      exact hRb
  have hRs2 : (step c p st k).Rs.getD 0 0 = FVal.nan := by
    rw [step_Rs]
    by_cases hb : is_transition_year c.snapshotYears c.transitions k
    · rw [if_pos hb, getD_set_ne _ _ (idxAt_ne_zero_of_ty c k hb)]
      exact hRs
    · rw [if_neg hb]
      exact hRs
  have hEbk : emitLoop ((step c p st k).Rb) c.transitionYears k 0
      (idxAt c k + 1) = FVal.nan :=
    emitLoop_nan_head _ _ _ _ hRb2 hty
  have hEsk : emitLoop ((step c p st k).Rs) c.transitionYears k 0
      (idxAt c k + 1) = FVal.nan :=
    emitLoop_nan_head _ _ _ _ hRs2 hty
  have hAbk : p.Yb.getD (idxAt c k) 0 = FVal.nan := by
    rw [hYb]
    exact getD_replicate _ _ _ hidx
  have hAsk : p.Ys.getD (idxAt c k) 0 = FVal.nan := by
    rw [hYs]
    exact getD_replicate _ _ _ hidx
  have hSb2 : (step c p st k).Sb = FVal.nan := by
    rw [step_Sb, hSb, FVal.nan_add]
  have hSs2 : (step c p st k).Ss = FVal.nan := by
    rw [step_Ss, hSs, FVal.nan_add]
  refine ⟨hSb2, hSs2, hRb2, hRs2, ?_, ?_, ?_, ?_, ?_, ?_, ?_, ?_⟩
  · rw [step_Ab, hAbk]
  · rw [step_As, hAsk]
  · rw [step_Eb, hEbk]
  · rw [step_Es, hEsk]
  · rw [step_Nb, hAbk, hEbk, FVal.nan_sub]
  · rw [step_Ns, hAsk, hEsk, FVal.nan_sub]
  · rw [step_V, hAbk, hEbk, FVal.nan_sub]
    by_cases heco : c.doEconomicAnalysis
    · rw [if_pos heco, if_pos heco, FVal.nan_add, FVal.nan_mul]
    · rw [if_neg heco, if_neg heco]
  · rw [step_Tseries, hSb2, hSs2, FVal.nan_add]

/-- At an all-NaN pixel every per-timestep series is all-NaN. -/
theorem c3_invariant (c : Config) (p : PixelParams)
    (hSb : p.Sb0 = FVal.nan) (hSs : p.Ss0 = FVal.nan)
    (hYb : p.Yb = List.replicate c.transitions FVal.nan)
    (hYs : p.Ys = List.replicate c.transitions FVal.nan)
    (hDb : p.Db = List.replicate c.transitions FVal.nan)
    (hDs : p.Ds = List.replicate c.transitions FVal.nan)
    (hty : c.transitionYears ≠ []) :
    ∀ k,
      (runUpTo c p k).Sb = FVal.nan ∧
      (runUpTo c p k).Ss = FVal.nan ∧
      (runUpTo c p k).Rb.getD 0 0 = FVal.nan ∧
      (runUpTo c p k).Rs.getD 0 0 = FVal.nan ∧
      (runUpTo c p k).Ab = List.replicate k FVal.nan ∧
      (runUpTo c p k).As = List.replicate k FVal.nan ∧
      (runUpTo c p k).Eb = List.replicate k FVal.nan ∧
      (runUpTo c p k).Es = List.replicate k FVal.nan ∧
      (runUpTo c p k).Nb = List.replicate k FVal.nan ∧
      (runUpTo c p k).Ns = List.replicate k FVal.nan ∧
      (runUpTo c p k).V = List.replicate k
        (if c.doEconomicAnalysis then FVal.nan else 0) ∧
      (runUpTo c p k).Tseries = List.replicate (k + 1) FVal.nan := by
  intro k
  induction k with
  | zero =>
    rw [runUpTo_zero]
    have hDb0 : p.Db.getD 0 0 = FVal.nan := by
      rw [hDb]
      exact getD_replicate _ _ _ (transitions_pos c)
    have hDs0 : p.Ds.getD 0 0 = FVal.nan := by
      rw [hDs]
      exact getD_replicate _ _ _ (transitions_pos c)
    refine ⟨hSb, hSs, ?_, ?_, rfl, rfl, rfl, rfl, rfl, rfl, rfl, ?_⟩
    · show ((List.replicate c.transitions (0 : FVal)).set 0
        (p.Db.getD 0 0 * p.Sb0)).getD 0 0 = FVal.nan
      rw [hDb0, FVal.nan_mul, getD_set_self _ _ _
        (by simpa using transitions_pos c)]
    · show ((List.replicate c.transitions (0 : FVal)).set 0
        (p.Ds.getD 0 0 * p.Ss0)).getD 0 0 = FVal.nan
      rw [hDs0, FVal.nan_mul, getD_set_self _ _ _
        (by simpa using transitions_pos c)]
    · show [p.Sb0 + p.Ss0] = List.replicate 1 FVal.nan
      rw [hSb, hSs, FVal.nan_add]
      rfl
  | succ n ih =>
    obtain ⟨iSb, iSs, iRb, iRs, iAb, iAs, iEb, iEs, iNb, iNs, iV, iT⟩ := ih
    obtain ⟨sSb, sSs, sRb, sRs, sAb, sAs, sEb, sEs, sNb, sNs, sV, sT⟩ :=
      step_nan c p (runUpTo c p n) n hYb hYs hty iSb iSs iRb iRs
    rw [runUpTo_succ]
    refine ⟨sSb, sSs, sRb, sRs, ?_, ?_, ?_, ?_, ?_, ?_, ?_, ?_⟩
    · rw [sAb, iAb, ← List.replicate_succ']
    · rw [sAs, iAs, ← List.replicate_succ']
    · rw [sEb, iEb, ← List.replicate_succ']
    · rw [sEs, iEs, ← List.replicate_succ']
    · rw [sNb, iNb, ← List.replicate_succ']
    · rw [sNs, iNs, ← List.replicate_succ']
    · rw [sV, iV, ← List.replicate_succ']
    · rw [sT, iT, ← List.replicate_succ']

theorem sliceSum_all_nan (xs : List FVal)
    (hall : ∀ x ∈ xs, x = FVal.nan) (a b : ℤ) (hlen : a.toNat < xs.length)
    (hab : 0 < (b - a).toNat) : sliceSum xs a b = FVal.nan := by
  have hlpos : 0 < ((xs.drop a.toNat).take (b - a).toNat).length := by
    rw [List.length_take, List.length_drop]
    omega
  obtain ⟨y, hy⟩ := List.exists_mem_of_length_pos hlpos
  have hynan : y = FVal.nan :=
    hall y (List.mem_of_mem_drop (List.mem_of_mem_take hy))
  unfold sliceSum
  exact foldl_add_eq_nan_of_mem _ _ (hynan ▸ hy)

/-- The per-period bounds used by the output slices, derived from strictly
increasing snapshot years. -/
theorem period_bounds (c : Config) (i : ℕ)
    (hchain : List.Chain' (· < ·) c.snapshotYears)
    (hlen : i + 1 < c.snapshotYears.length) :
    0 ≤ s_to_timestep c.snapshotYears i ∧
    s_to_timestep c.snapshotYears i < s_to_timestep c.snapshotYears (i + 1) ∧
    (s_to_timestep c.snapshotYears (i + 1)).toNat ≤ c.timestepsNat := by
  have hhead : c.snapshotYears.headD 0 = c.snapshotYears.getD 0 0 :=
    headD_eq_getD_zero _ _
  have hne : c.snapshotYears ≠ [] := by
    intro h
    rw [h] at hlen
    simp at hlen
  have hs2t : ∀ n : ℕ, s_to_timestep c.snapshotYears n =
      c.snapshotYears.getD n 0 - c.snapshotYears.getD 0 0 := by
    intro n
    unfold s_to_timestep
    rw [hhead]
  have hTeq : c.timestepsNat =
      (c.snapshotYears.getD (c.snapshotYears.length - 1) 0 -
        c.snapshotYears.getD 0 0).toNat := by
    unfold Config.timestepsNat Config.timesteps
    rw [getLastD_eq_getD _ hne 0, hhead]
  have hii : c.snapshotYears.getD i 0 < c.snapshotYears.getD (i + 1) 0 :=
    getD_lt_getD_of_chain _ hchain (by omega) hlen
  have h0i : c.snapshotYears.getD 0 0 ≤ c.snapshotYears.getD i 0 := by
    rcases Nat.eq_zero_or_pos i with h0 | h0
    · subst h0
      exact le_refl _
    · exact le_of_lt (getD_lt_getD_of_chain _ hchain h0 (by omega))
  have hilast : c.snapshotYears.getD (i + 1) 0 ≤
      c.snapshotYears.getD (c.snapshotYears.length - 1) 0 := by
    rcases Nat.lt_or_ge (i + 1) (c.snapshotYears.length - 1) with h | h
    · exact le_of_lt (getD_lt_getD_of_chain _ hchain h (by omega))
    · have heq2 : i + 1 = c.snapshotYears.length - 1 := by omega
      rw [heq2]
  rw [hs2t, hs2t, hTeq]
  omega

/-- The snapshot's timestep is within the run, for every snapshot index. -/
theorem snapshot_timestep_le (c : Config) (i : ℕ)
    (hchain : List.Chain' (· < ·) c.snapshotYears)
    (hlen : i < c.snapshotYears.length) :
    0 ≤ s_to_timestep c.snapshotYears i ∧
    (s_to_timestep c.snapshotYears i).toNat ≤ c.timestepsNat := by
  have hhead : c.snapshotYears.headD 0 = c.snapshotYears.getD 0 0 :=
    headD_eq_getD_zero _ _
  have hne : c.snapshotYears ≠ [] := by
    intro h
    rw [h] at hlen
    simp at hlen
  have hs2t : s_to_timestep c.snapshotYears i =
      c.snapshotYears.getD i 0 - c.snapshotYears.getD 0 0 := by
    unfold s_to_timestep
    rw [hhead]
  have hTeq : c.timestepsNat =
      (c.snapshotYears.getD (c.snapshotYears.length - 1) 0 -
        c.snapshotYears.getD 0 0).toNat := by
    unfold Config.timestepsNat Config.timesteps
    rw [getLastD_eq_getD _ hne 0, hhead]
  have h0i : c.snapshotYears.getD 0 0 ≤ c.snapshotYears.getD i 0 := by
    rcases Nat.eq_zero_or_pos i with h0 | h0
    · subst h0
      exact le_refl _
    · exact le_of_lt (getD_lt_getD_of_chain _ hchain h0 hlen)
  have hilast : c.snapshotYears.getD i 0 ≤
      c.snapshotYears.getD (c.snapshotYears.length - 1) 0 := by
    rcases Nat.lt_or_ge i (c.snapshotYears.length - 1) with h | h
    · exact le_of_lt (getD_lt_getD_of_chain _ hchain h (by omega))
    · have heq2 : i = c.snapshotYears.length - 1 := by omega
      rw [heq2]
  rw [hs2t, hTeq]
  omega

theorem numSnapshots_le (c : Config) :
    c.numSnapshots ≤ c.transitions + 1 := by
  unfold Config.numSnapshots Config.snapshotYears Config.transitions
  cases c.analysisYear <;> simp

/-! ### Claim theorems -/

/-! ### The single-transition scenario, symbolically in the analysis year -/

theorem c1_transitionYears (T : ℕ) : (c1 T).transitionYears = [2005] := rfl

theorem c1_transitions (T : ℕ) : (c1 T).transitions = 2 := rfl

theorem c1_timestepsNat (T : ℕ) : (c1 T).timestepsNat = T := by
  unfold Config.timestepsNat Config.timesteps Config.snapshotYears c1
  simp [List.getLastD]

/-- With a single transition year, the emission loop always reduces to the
single `j = 0` term, for every positive fuel. -/
theorem emitLoop_single (R : List FVal) (y0 t : ℤ) (j : ℕ) :
    emitLoop R [y0] t 0 (j + 1) =
      R.getD 0 0 * FVal.val (decayTerm t (y0 - y0)) + 0 := by
  cases j with
  | zero => rfl
  | succ m => rfl

theorem decayTerm_natCast (k : ℕ) (y : ℤ) :
    decayTerm (k : ℤ) (y - y) = (1 / 2 : ℚ) ^ k - (1 / 2 : ℚ) ^ (k + 1) := by
  unfold decayTerm
  rw [sub_self, sub_zero, zpow_natCast]
  have h : (k : ℤ) + 1 = ((k + 1 : ℕ) : ℤ) := by push_cast; ring
  rw [h, zpow_natCast]

theorem p1_Yb_getD : ∀ j, j < 2 → p1.Yb.getD j 0 = FVal.val 0 := by decide

theorem map_range_getD (f : ℕ → FVal) (n t : ℕ) (h : t < n) :
    ((List.range n).map f).getD t 0 = f t := by
  rw [List.getD_eq_getElem _ _ (by simpa using h)]
  simp

theorem geom_telescope (T : ℕ) :
    ∑ u in Finset.range T, (10 * ((1 / 2 : ℚ) ^ u - (1 / 2 : ℚ) ^ (u + 1))) =
      10 * (1 - (1 / 2 : ℚ) ^ T) := by
  induction T with
  | zero => simp
  | succ n ih =>
    rw [Finset.sum_range_succ, ih]
    ring

/-- In the C1 scenario the stock decays as `10 * (1/2)^k`, the first ledger
entry stays 10, and the emission written at every timestep `u` is
`10 * ((1/2)^u - (1/2)^(u+1))`: the decay runs from timestep 0. -/
theorem c1_invariant (T : ℕ) : ∀ k : ℕ,
    (runUpTo (c1 T) p1 k).Sb = FVal.val (10 * (1 / 2 : ℚ) ^ k) ∧
    (runUpTo (c1 T) p1 k).Rb.getD 0 0 = FVal.val 10 ∧
    (runUpTo (c1 T) p1 k).Eb = (List.range k).map
      (fun u => FVal.val (10 * ((1 / 2 : ℚ) ^ u - (1 / 2 : ℚ) ^ (u + 1)))) := by
  intro k
  induction k with
  | zero =>
    refine ⟨?_, ?_, rfl⟩
    · show p1.Sb0 = FVal.val (10 * (1 / 2 : ℚ) ^ 0)
      rw [show (10 * (1 / 2 : ℚ) ^ 0) = 10 by norm_num]
      decide
    · show ((List.replicate 2 (0 : FVal)).set 0
        (p1.Db.getD 0 0 * p1.Sb0)).getD 0 0 = FVal.val 10
      decide
  | succ n ih =>
    obtain ⟨iSb, iRb, iEb⟩ := ih
    rw [runUpTo_succ]
    have hidx : idxAt (c1 T) n < (c1 T).transitions :=
      idx_getD_lt_transitions _ _ _ (transitions_pos _)
    have hidx2 : idxAt (c1 T) n < 2 := c1_transitions T ▸ hidx
    have hRb2 : (step (c1 T) p1 (runUpTo (c1 T) p1 n) n).Rb.getD 0 0 =
        FVal.val 10 := by
      rw [step_Rb]
      by_cases hb : is_transition_year (c1 T).snapshotYears
        (c1 T).transitions n
      · rw [if_pos hb, getD_set_ne _ _ (idxAt_ne_zero_of_ty _ _ hb)]
        exact iRb
      · rw [if_neg hb]
        exact iRb
    have hEbk : emitLoop ((step (c1 T) p1 (runUpTo (c1 T) p1 n) n).Rb)
        (c1 T).transitionYears n 0 (idxAt (c1 T) n + 1) =
        FVal.val (10 * ((1 / 2 : ℚ) ^ n - (1 / 2 : ℚ) ^ (n + 1))) := by
      rw [c1_transitionYears, emitLoop_single, hRb2, decayTerm_natCast,
        FVal.mul_def, FVal.addZero]
    have hA : p1.Yb.getD (idxAt (c1 T) n) 0 = FVal.val 0 :=
      p1_Yb_getD _ hidx2
    refine ⟨?_, hRb2, ?_⟩
    · rw [step_Sb, iSb, hA, hEbk, FVal.sub_def, FVal.add_def]
      exact congrArg FVal.val (by ring)
    · rw [step_Eb, hEbk, iEb, List.range_succ, List.map_append]
      rfl

/-- Claim C1 (amended): in the single-transition full-disturbance scenario
(any analysis year `2000 + T` with `T > 5`), the disturbed biomass ledger
`R_biomass[0] = 1.0 * 10.0 = 10.0` is recorded at initialization (timestep
0), not at timestep 5; the biomass emissions begin immediately with
`E_biomass[0] = 5.0` and `E_biomass[1] = 2.5`, and the emission series over
the run sums to `10 * (1 - (1/2)^T)`, approaching 10.0 asymptotically. -/
theorem C1_amended_decay_from_timestep_zero (T : ℕ) (hT : 5 < T) :
    (initState (c1 T) p1).Rb.getD 0 0 = FVal.val 10 ∧
    (runEngine (c1 T) p1).Eb.getD 0 0 = FVal.val 5 ∧
    (runEngine (c1 T) p1).Eb.getD 1 0 = FVal.val (5 / 2) ∧
    (runEngine (c1 T) p1).Eb.foldl (· + ·) 0 =
      FVal.val (10 * (1 - (1 / 2 : ℚ) ^ T)) := by
  obtain ⟨hSb, hRb, hEb⟩ := c1_invariant T T
  have hTN : (c1 T).timestepsNat = T := c1_timestepsNat T
  rw [runEngine_eq_runUpTo, hTN]
  refine ⟨?_, ?_, ?_, ?_⟩
  · show ((List.replicate 2 (0 : FVal)).set 0
      (p1.Db.getD 0 0 * p1.Sb0)).getD 0 0 = FVal.val 10
    decide
  · rw [hEb, map_range_getD _ _ _ (by omega)]
    exact congrArg FVal.val (by norm_num)
  · rw [hEb, map_range_getD _ _ _ (by omega)]
    exact congrArg FVal.val (by norm_num)
  · rw [hEb, foldl_add_eq_add_sum, zero_add, map_range_sum, geom_telescope]

/-- Witness for the amended claim C1 at the concrete analysis year 2010. -/
theorem C1_amended_witness : 5 < 10 ∧
    ((initState (c1 10) p1).Rb.getD 0 0 = FVal.val 10 ∧
    (runEngine (c1 10) p1).Eb.getD 0 0 = FVal.val 5 ∧
    (runEngine (c1 10) p1).Eb.getD 1 0 = FVal.val (5 / 2) ∧
    (runEngine (c1 10) p1).Eb.foldl (· + ·) 0 =
      FVal.val (10 * (1 - (1 / 2 : ℚ) ^ 10))) :=
  ⟨by decide, C1_amended_decay_from_timestep_zero 10 (by decide)⟩

/-- Claim C1, counterexample: in the single-transition full-disturbance
scenario (baseline 2000 code A with biomass stock 10, transition 2005 to
code B with disturbance fraction 1.0, zero accumulation, analysis year 2010),
the biomass emission at timestep 5 is `10 * (0.5^5 - 0.5^6) = 5/32`, not the
claimed `5.0`: the decay is anchored at timestep 0, because the source
computes `j = transition_years[idx] - transition_years[0]`, which is `0` for
the first transition. -/
theorem C1_counterexample_emission_at_5 :
    (runEngine (c1 10) p1).Eb.getD 5 0 = FVal.val (5 / 32) ∧
      FVal.val (5 / 32 : ℚ) ≠ FVal.val 5 := by decide

/-- Claim C2, counterexample: at timestep 5 of the C1 scenario the engine's
emission (5/32) differs from the claimed formula anchored at the baseline
year (`j_year = transition_year[j] - first snapshot year`), which yields 5. -/
theorem C2_counterexample_baseline_anchor :
    (runEngine (c1 10) p1).Eb.getD 5 0 ≠
      emissionClaimBaselineAnchored (c1 10) ((runUpTo (c1 10) p1 6).Rb) 5
        (idxAt (c1 10) 5) := by decide

/-- Claim C2 (amended): for every pool and every timestep `t` of the run, the
emission equals the sum over every transition index `j ≤ transition_of(t)`
that has an associated transition year of
`R_pool[j] * (0.5^(t-j_year) - 0.5^(t-j_year+1))`, where
`j_year = transition_years[j] - transition_years[0]` is anchored at the FIRST
TRANSITION year (not the baseline year), and `R_pool` is the disturbed-carbon
ledger as of timestep `t`. -/
theorem C2_amended_emission_decay_sum (c : Config) (p : PixelParams) (t : ℕ)
    (ht : t < c.timestepsNat) :
    (runEngine c p).Eb.getD t 0 =
      (∑ j in Finset.range (min (idxAt c t + 1) c.transitionYears.length),
        (runUpTo c p (t + 1)).Rb.getD j 0 *
          FVal.val (decayTerm t (c.transitionYears.getD j 0 -
            c.transitionYears.headD 0))) ∧
    (runEngine c p).Es.getD t 0 =
      (∑ j in Finset.range (min (idxAt c t + 1) c.transitionYears.length),
        (runUpTo c p (t + 1)).Rs.getD j 0 *
          FVal.val (decayTerm t (c.transitionYears.getD j 0 -
            c.transitionYears.headD 0))) := by
  constructor
  · rw [runEngine_Eb_getD c p ht, runUpTo_Eb_getD_succ, emitLoop_eq_sum]
    simp only [Nat.zero_add, Nat.sub_zero]
  · rw [runEngine_Es_getD c p ht, runUpTo_Es_getD_succ, emitLoop_eq_sum]
    simp only [Nat.zero_add, Nat.sub_zero]

/-- Witness for the amended claim C2 at the concrete scenario, timestep 3. -/
theorem C2_amended_witness : 3 < (c1 10).timestepsNat ∧
    ((runEngine (c1 10) p1).Eb.getD 3 0 =
      (∑ j in Finset.range
          (min (idxAt (c1 10) 3 + 1) (c1 10).transitionYears.length),
        (runUpTo (c1 10) p1 4).Rb.getD j 0 *
          FVal.val (decayTerm 3 ((c1 10).transitionYears.getD j 0 -
            (c1 10).transitionYears.headD 0))) ∧
    (runEngine (c1 10) p1).Es.getD 3 0 =
      (∑ j in Finset.range
          (min (idxAt (c1 10) 3 + 1) (c1 10).transitionYears.length),
        (runUpTo (c1 10) p1 4).Rs.getD j 0 *
          FVal.val (decayTerm 3 ((c1 10).transitionYears.getD j 0 -
            (c1 10).transitionYears.headD 0)))) :=
  ⟨by decide, C2_amended_emission_decay_sum (c1 10) p1 3 (by decide)⟩

/-- Claim C3, counterexample: in a baseline-only run, a pixel whose code is
the baseline nodata value produces a per-period emission output of exactly
zero — neither NaN nor the nodata sentinel — because the emission loop
breaks immediately (there are no transition years) and leaves the
zero-initialised emission array untouched. -/
theorem C3_counterexample_zero_leak :
    E_r_out cX pX 0 = FVal.val 0 ∧ FVal.val (0 : ℚ) ≠ FVal.nan ∧
      FVal.val (0 : ℚ) ≠ FVal.val NODATA_FLOAT := by decide

/-- Claim C3 (amended): at a pixel whose land-cover code equals the baseline
raster's (truthy, nonzero) nodata value in the baseline and in every
transition raster, in a run with at least one transition raster and strictly
increasing snapshot years, every derived output (per-snapshot stock,
per-period accumulation/emission/net sequestration, total net sequestration,
and NPV when enabled) is NaN — never zero — and the write step leaves NaN in
the written block instead of converting it to the nodata sentinel. -/
theorem C3_amended_nan_every_output (c : Config)
    (dDb dDs : ℤ × ℤ → Option ℚ) (dHb dHs dYb dYs dSb dSs dL : ℤ → Option ℚ)
    (mask : ℤ) (p : PixelParams) (hmask : mask ≠ 0)
    (hp : p = buildPixelParams (List.replicate (c.transitions + 1) mask)
      c.transitions dDb dDs dHb dHs dYb dYs dSb dSs dL mask)
    (hchain : List.Chain' (· < ·) c.snapshotYears)
    (hty : c.transitionYears ≠ []) :
    (∀ i, i < c.numSnapshots → T_s_out c p i = FVal.nan) ∧
    (∀ i, i + 1 < c.numSnapshots →
      A_r_out c p i = FVal.nan ∧ E_r_out c p i = FVal.nan ∧
        N_r_out c p i = FVal.nan) ∧
    N_total_out c p = FVal.nan ∧
    (c.doEconomicAnalysis = true → NPV_out c p = FVal.nan) ∧
    write_block [FVal.nan] = [FVal.nan] := by
  have hfields := buildPixelParams_nodata c.transitions dDb dDs dHb dHs dYb
    dYs dSb dSs dL mask hmask
  rw [← hp] at hfields
  have hSb : p.Sb0 = FVal.nan := by rw [hfields]
  have hSs : p.Ss0 = FVal.nan := by rw [hfields]
  have hYb : p.Yb = List.replicate c.transitions FVal.nan := by rw [hfields]
  have hYs : p.Ys = List.replicate c.transitions FVal.nan := by rw [hfields]
  have hDb : p.Db = List.replicate c.transitions FVal.nan := by rw [hfields]
  have hDs : p.Ds = List.replicate c.transitions FVal.nan := by rw [hfields]
  have hL : p.L = List.replicate (c.transitions + 1) FVal.nan := by
    rw [hfields]
  obtain ⟨fSb, fSs, fRb, fRs, fAb, fAs, fEb, fEs, fNb, fNs, fV, fT⟩ :=
    c3_invariant c p hSb hSs hYb hYs hDb hDs hty c.timestepsNat
  have hty1 : 0 < c.transitionYears.length := List.length_pos.mpr hty
  have hlen2 : 2 ≤ c.snapshotYears.length := by
    unfold Config.snapshotYears
    cases c.analysisYear <;> simp <;> omega
  have hne : c.snapshotYears ≠ [] := by
    intro h
    rw [h] at hlen2
    simp at hlen2
  have hT1 : 1 ≤ c.timestepsNat := by
    have := getD_lt_getD_of_chain _ hchain
      (show 0 < c.snapshotYears.length - 1 by omega) (by omega)
    unfold Config.timestepsNat Config.timesteps
    rw [getLastD_eq_getD _ hne 0, headD_eq_getD_zero]
    omega
  have haddrep :
      addSeries (List.replicate c.timestepsNat FVal.nan)
          (List.replicate c.timestepsNat FVal.nan) =
        List.replicate c.timestepsNat FVal.nan := by
    unfold addSeries
    rw [List.zipWith_replicate, Nat.min_self]
    rfl
  refine ⟨?_, ?_, ?_, ?_, rfl⟩
  · intro i hi
    obtain ⟨hge, hle⟩ := snapshot_timestep_le c i hchain hi
    rw [T_s_out, runEngine_eq_runUpTo, fT, hL,
      getD_replicate _ _ _ (show (s_to_timestep c.snapshotYears i).toNat <
        c.timestepsNat + 1 by omega),
      getD_replicate _ _ _ (Nat.lt_of_lt_of_le hi (numSnapshots_le c))]
    rfl
  · intro i hi
    obtain ⟨hb0, hblt, hble⟩ := period_bounds c i hchain hi
    refine ⟨?_, ?_, ?_⟩
    · rw [A_r_out, runEngine_eq_runUpTo, fAb, fAs, haddrep]
      exact sliceSum_all_nan _ (fun x hx => List.eq_of_mem_replicate hx) _ _
        (by rw [List.length_replicate]; omega) (by omega)
    · rw [E_r_out, runEngine_eq_runUpTo, fEb, fEs, haddrep]
      exact sliceSum_all_nan _ (fun x hx => List.eq_of_mem_replicate hx) _ _
        (by rw [List.length_replicate]; omega) (by omega)
    · rw [N_r_out, runEngine_eq_runUpTo, fNb, fNs, haddrep]
      exact sliceSum_all_nan _ (fun x hx => List.eq_of_mem_replicate hx) _ _
        (by rw [List.length_replicate]; omega) (by omega)
  · rw [N_total_out, runEngine_eq_runUpTo, fNb, fNs, haddrep]
    exact foldl_add_eq_nan_of_mem _ _
      (List.mem_replicate.mpr ⟨by omega, rfl⟩)
  · intro heco
    rw [NPV_out, runEngine_eq_runUpTo, fV, heco, if_pos rfl]
    exact foldl_add_eq_nan_of_mem _ _
      (List.mem_replicate.mpr ⟨by omega, rfl⟩)

/-- Witness for the amended claim C3: one transition raster, nodata value
`-1`, snapshot years 2000 < 2005 < 2010. -/
theorem C3_amended_witness :
    ((-1 : ℤ) ≠ 0 ∧ List.Chain' (· < ·) cW3.snapshotYears ∧
      cW3.transitionYears ≠ []) ∧
    ((∀ i, i < cW3.numSnapshots → T_s_out cW3 pW3 i = FVal.nan) ∧
    (∀ i, i + 1 < cW3.numSnapshots →
      A_r_out cW3 pW3 i = FVal.nan ∧ E_r_out cW3 pW3 i = FVal.nan ∧
        N_r_out cW3 pW3 i = FVal.nan) ∧
    N_total_out cW3 pW3 = FVal.nan ∧
    (cW3.doEconomicAnalysis = true → NPV_out cW3 pW3 = FVal.nan) ∧
    write_block [FVal.nan] = [FVal.nan]) :=
  ⟨⟨by decide, by norm_num [cW3, Config.snapshotYears, List.chain'_cons],
      by decide⟩,
    C3_amended_nan_every_output cW3 dD5 dD5 dnone dnone dnone dnone dnone
      dnone dnone (-1) pW3 (by decide) rfl
      (by norm_num [cW3, Config.snapshotYears, List.chain'_cons])
      (by decide)⟩

/-- Claim C4: the NaN-to-sentinel conversion of `write_to_raster` is inert.
The source line `array[array == np.nan] = NODATA_FLOAT` compares every cell
to NaN with IEEE equality, which is false everywhere (NaN included), so a
NaN cell is written out as NaN rather than as the sentinel -16777216.  The
claim describes the evident intent; the code is a slip. -/
theorem C4_write_leaves_nan :
    write_block [FVal.nan] = [FVal.nan] ∧
      FVal.nan ≠ FVal.val NODATA_FLOAT := by decide

/-- Claim C5: in the baseline-only run (no transition rasters, analysis year
2010 = baseline 2000 + 10) with yearly biomass accumulation 2.0 and initial
stock 0, the biomass stock at timestep 10 is 20.0. -/
theorem C5_baseline_only_growth :
    (runEngine c5 p5).SbSeries.getD 10 0 = FVal.val 20 := by decide

/-- Claim C6: the per-period net-sequestration output for the period between
consecutive snapshot years `i` and `i+1` equals the sum of the per-timestep
net sequestration `N[t] = N_biomass[t] + N_soil[t]` over the half-open
timestep range between the two snapshot years. -/
theorem C6_period_equals_sum (c : Config) (p : PixelParams) (i : ℕ)
    (hchain : List.Chain' (· < ·) c.snapshotYears)
    (hlen : i + 1 < c.snapshotYears.length) :
    N_r_out c p i =
      ∑ t in Finset.Ico (s_to_timestep c.snapshotYears i).toNat
          (s_to_timestep c.snapshotYears (i + 1)).toNat,
        ((runEngine c p).Nb.getD t 0 + (runEngine c p).Ns.getD t 0) := by
  have hhead : c.snapshotYears.headD 0 = c.snapshotYears.getD 0 0 :=
    headD_eq_getD_zero _ _
  have hne : c.snapshotYears ≠ [] := by
    intro h
    rw [h] at hlen
    simp at hlen
  have hs2t : ∀ n : ℕ, s_to_timestep c.snapshotYears n =
      c.snapshotYears.getD n 0 - c.snapshotYears.getD 0 0 := by
    intro n
    unfold s_to_timestep
    rw [hhead]
  have hTeq : c.timestepsNat =
      (c.snapshotYears.getD (c.snapshotYears.length - 1) 0 -
        c.snapshotYears.getD 0 0).toNat := by
    unfold Config.timestepsNat Config.timesteps
    rw [getLastD_eq_getD _ hne 0, hhead]
  have hii : c.snapshotYears.getD i 0 < c.snapshotYears.getD (i + 1) 0 :=
    getD_lt_getD_of_chain _ hchain (by omega) hlen
  have h0i : c.snapshotYears.getD 0 0 ≤ c.snapshotYears.getD i 0 := by
    rcases Nat.eq_zero_or_pos i with h0 | h0
    · subst h0
      exact le_refl _
    · exact le_of_lt (getD_lt_getD_of_chain _ hchain h0 (by omega))
  have hilast : c.snapshotYears.getD (i + 1) 0 ≤
      c.snapshotYears.getD (c.snapshotYears.length - 1) 0 := by
    rcases Nat.lt_or_ge (i + 1) (c.snapshotYears.length - 1) with h | h
    · exact le_of_lt (getD_lt_getD_of_chain _ hchain h (by omega))
    · have heq2 : i + 1 = c.snapshotYears.length - 1 := by omega
      rw [heq2]
  rw [N_r_out, sliceSum_eq_sum]
  simp only [hs2t]
  have hrange : (c.snapshotYears.getD i 0 -
        c.snapshotYears.getD 0 0).toNat +
      (c.snapshotYears.getD (i + 1) 0 - c.snapshotYears.getD 0 0 -
        (c.snapshotYears.getD i 0 - c.snapshotYears.getD 0 0)).toNat =
      (c.snapshotYears.getD (i + 1) 0 - c.snapshotYears.getD 0 0).toNat := by
    omega
  rw [hrange]
  refine Finset.sum_congr rfl (fun t htm => ?_)
  have htb := (Finset.mem_Ico.mp htm).2
  have htT : t < c.timestepsNat := by
    rw [hTeq]
    omega
  refine addSeries_getD _ _ t ?_ ?_
  · rw [runEngine_eq_runUpTo, runUpTo_Nb_length]
    exact htT
  · rw [runEngine_eq_runUpTo, runUpTo_Ns_length]
    exact htT

/-- Witness for claim C6 at the concrete single-transition scenario,
period 0 (years 2000 to 2005). -/
theorem C6_witness : List.Chain' (· < ·) (c1 10).snapshotYears ∧
    N_r_out (c1 10) p1 0 =
      ∑ t in Finset.Ico (s_to_timestep (c1 10).snapshotYears 0).toNat
          (s_to_timestep (c1 10).snapshotYears 1).toNat,
        ((runEngine (c1 10) p1).Nb.getD t 0 +
          (runEngine (c1 10) p1).Ns.getD t 0) :=
  ⟨by norm_num [c1, Config.snapshotYears, List.chain'_cons],
    C6_period_equals_sum (c1 10) p1 0
      (by norm_num [c1, Config.snapshotYears, List.chain'_cons])
      (by norm_num [c1, Config.snapshotYears])⟩

/-- Claim C7: with economic analysis enabled, the valuation at timestep `t`
is `V[t] = (N_biomass[t] + N_soil[0]) * price_t[t]` — the soil term is the
net soil sequestration at timestep 0, not at `t` — and the net present value
output is the sum of `V[t]` over all timesteps. -/
theorem C7_valuation_uses_soil_at_t0 (c : Config) (p : PixelParams) (t : ℕ)
    (heco : c.doEconomicAnalysis = true) (ht : t < c.timestepsNat) :
    (runEngine c p).V.getD t 0 =
      ((runEngine c p).Nb.getD t 0 + (runEngine c p).Ns.getD 0 0) *
        FVal.val (c.priceT.getD t 0) ∧
    NPV_out c p =
      ∑ u in Finset.range c.timestepsNat, (runEngine c p).V.getD u 0 := by
  constructor
  · rw [runEngine_V_getD c p ht, runUpTo_V_getD_succ, heco, if_pos rfl,
      runEngine_Nb_getD c p ht, runUpTo_Nb_getD_succ,
      runEngine_Ns_getD_zero c p ht, headD_eq_getD_zero]
  · rw [NPV_out, foldl_add_eq_add_sum, zero_add, sum_eq_sum_range_getD,
      runEngine_eq_runUpTo, runUpTo_V_length]

/-- Witness for claim C7: baseline-only economic run, timestep 1. -/
theorem C7_witness : (c7w.doEconomicAnalysis = true ∧ 1 < c7w.timestepsNat) ∧
    ((runEngine c7w p5).V.getD 1 0 =
      ((runEngine c7w p5).Nb.getD 1 0 + (runEngine c7w p5).Ns.getD 0 0) *
        FVal.val (c7w.priceT.getD 1 0) ∧
    NPV_out c7w p5 =
      ∑ u in Finset.range c7w.timestepsNat, (runEngine c7w p5).V.getD u 0) :=
  ⟨⟨rfl, by decide⟩, C7_valuation_uses_soil_at_t0 c7w p5 1 rfl (by decide)⟩

/-- Claim C8: when the price table is missing any year of the inclusive range
from the first to the last snapshot year, building the price trajectory
fails, and the error names a missing year of the range (the first one the
scan hits; the source raises `KeyError` with exactly that year). -/
theorem C8_price_table_missing_year (priceDict : ℤ → Option ℚ)
    (startYear endYear m : ℤ) (h1 : startYear ≤ m) (h2 : m ≤ endYear)
    (hmiss : priceDict m = none) :
    ∃ y, startYear ≤ y ∧ y ≤ endYear ∧ priceDict y = none ∧
      get_price_table priceDict startYear endYear = .error y := by
  obtain ⟨y, hy, hn, herr⟩ := collectPrices_error_of_missing priceDict
    (yearsRange startYear endYear)
    ⟨m, (mem_yearsRange startYear endYear m).mpr ⟨h1, h2⟩, hmiss⟩
  obtain ⟨hy1, hy2⟩ := (mem_yearsRange startYear endYear y).mp hy
  exact ⟨y, hy1, hy2, hn, herr⟩

/-- Witness for claim C8: a table holding only year 2000, queried for
2000..2002, fails naming a missing year. -/
theorem C8_witness : (2000 ≤ (2001 : ℤ) ∧ (2001 : ℤ) ≤ 2002 ∧
      dPrice8 2001 = none) ∧
    ∃ y, (2000 : ℤ) ≤ y ∧ y ≤ 2002 ∧ dPrice8 y = none ∧
      get_price_table dPrice8 2000 2002 = .error y :=
  ⟨⟨by decide, by decide, by decide⟩,
    C8_price_table_missing_year dPrice8 2000 2002 2001 (by decide)
      (by decide) (by decide)⟩

/-- Claim C9, counterexample: an out-of-order pair of SNAPSHOT years is not
always fatal.  With baseline year 2010 and the single transition year 2005,
the snapshot list is the out-of-order `[2010, 2005]`, yet `get_inputs`
validation succeeds (the sortedness check only inspects the transition-years
list, never the baseline year). -/
theorem C9_counterexample_baseline_unchecked :
    get_inputs_validate 2010 [2005] none = .ok ([2010, 2005], 2, -5) ∧
      isChronological [2010, 2005] = false := ⟨rfl, rfl⟩

/-- Claim C9 (amended): non-chronological TRANSITION years, and an analysis
year not strictly after the last snapshot year, abort the run with an error
during setup, before the engine reads any raster; an out-of-order baseline
year is not checked. -/
theorem C9_amended_validation_errors (b : ℤ) (ty : List ℤ) (ay : Option ℤ)
    (doEcon : Bool) (priceT : List ℚ) (p : PixelParams)
    (h : isChronological ty = false ∨
      ∃ a, ay = some a ∧ a ≤ (b :: ty).getLastD 0) :
    ∃ e, executeModel b ty ay doEcon priceT p = .error e := by
  rcases h with hchron | ⟨a, rfl, hle⟩
  · refine ⟨"LULC snapshot years must be provided in chronological order.",
      ?_⟩
    rw [executeModel, get_inputs_validate, if_pos hchron]
  · cases hc : isChronological ty with
    | false =>
      refine ⟨"LULC snapshot years must be provided in chronological order.",
        ?_⟩
      rw [executeModel, get_inputs_validate, if_pos hc]
    | true =>
      refine ⟨"Analysis year must be greater than last transition year.", ?_⟩
      rw [executeModel, get_inputs_validate, if_neg (by rw [hc]; simp)]
      simp only [if_pos hle]

/-- Witness for the amended claim C9 on the transition years `[2010, 2005]`
of the spec's example. -/
theorem C9_amended_witness : isChronological [(2010 : ℤ), 2005] = false ∧
    ∃ e, executeModel 2000 [2010, 2005] none false [] pX = .error e :=
  ⟨by decide, C9_amended_validation_errors 2000 [2010, 2005] none false [] pX
    (Or.inl (by decide))⟩

/-- Claim C10: for strictly increasing snapshot years (at least two of them)
and every timestep `0 ≤ t < snapshot_years[-1] - snapshot_years[0]`, the scan
of `timestep_to_transition_idx` returns some index `j < transitions` (with
`transitions` as computed by `get_inputs`, so the snapshot list has length
`transitions` or `transitions + 1`), and the scan's reads of
`snapshot_years[j+1]` stay in bounds, so the engine's indexing of
`Y_pool[transition_of(t)]` is in range. -/
theorem C10_transition_idx_total (s : List ℤ) (transitions : ℕ) (t : ℤ)
    (hchain : List.Chain' (· < ·) s) (hlen : 2 ≤ s.length)
    (hrel : s.length = transitions ∨ s.length = transitions + 1)
    (ht0 : 0 ≤ t) (ht : t < s.getLastD 0 - s.headD 0) :
    ∃ j, timestep_to_transition_idx s transitions t = some j ∧
      j < transitions ∧ j + 1 < s.length :=
  timestep_to_transition_idx_spec s transitions t hlen (by omega) ht

/-- Witness for claim C10: three snapshot years, timestep 7. -/
theorem C10_witness : (List.Chain' (· < ·) [(2000 : ℤ), 2005, 2010] ∧
      (0 : ℤ) ≤ 7 ∧ (7 : ℤ) < 10) ∧
    ∃ j, timestep_to_transition_idx [(2000 : ℤ), 2005, 2010] 2 7 = some j ∧
      j < 2 ∧ j + 1 < [(2000 : ℤ), 2005, 2010].length :=
  ⟨⟨by norm_num [List.chain'_cons], by decide, by decide⟩,
    C10_transition_idx_total [2000, 2005, 2010] 2 7
      (by norm_num [List.chain'_cons]) (by decide)
      (Or.inr (by decide)) (by decide) (by decide)⟩

end CBC
